import Mathlib

/-!
Verification of the BlockSettleDB encrypted wallet store against its
specification.  The development embeds, as executable Lean functions over
byte lists (`List Nat`, each element `< 256`):

* the serialization helpers (`be32`, Bitcoin-style varints);
* the hash primitives SHA-256, SHA-512, HMAC-SHA-256/512 and the
  double-SHA-256 `hash256` (FIPS 180-4 / RFC 2104; the repository consumes
  them from crypto libraries as black boxes);
* AES-256-CBC with PKCS#7 padding (FIPS 197);
* secp256k1 point arithmetic (Jacobian coordinates) as used for the
  per-record integrated-encryption-scheme (IES) envelope;
* the test-fixture functions of `WalletTests.cpp` that define the on-disk
  record format: `generateKeyPair`, `computeHmac`, `decryptPair`,
  `getErasurePacket`, `tallyGaps`;
* a model of the encrypted key-value engine, its transactions, the
  decrypted-data container and the watch-only wallet fork.  The engine
  implementation itself is not part of the given sources, so those parts
  are modelled from the specification text and marked as such.
-/

/-! ## Bytes and serialization -/

/-- Truncate to a 32-bit word. -/
def w32 (x : Nat) : Nat := x % 4294967296

/-- Truncate to a 64-bit word. -/
def w64 (x : Nat) : Nat := x % 18446744073709551616

/-- Big-endian 4-byte encoding of a 32-bit value, as written by
`BinaryWriter::put_uint32_t(v, BE)` and read by `READ_UINT32_BE`. -/
def be32 (n : Nat) : List Nat :=
  [n / 16777216 % 256, n / 65536 % 256, n / 256 % 256, n % 256]

/-- Big-endian 8-byte encoding of a 64-bit value (SHA padding length field). -/
def be64 (n : Nat) : List Nat :=
  [n / 72057594037927936 % 256, n / 281474976710656 % 256,
   n / 1099511627776 % 256, n / 4294967296 % 256,
   n / 16777216 % 256, n / 65536 % 256, n / 256 % 256, n % 256]

/-- The four bytes of the in-memory representation of a C `unsigned` on the
program's supported targets (x86/ARM, little-endian), as produced by the
cast `SecureBinaryData hmacKey((uint8_t*)&ctr, 4)` in
`WalletInterfaceTest::generateKeyPair` (WalletTests.cpp:569). -/
def u32NativeBytes (n : Nat) : List Nat :=
  [n % 256, n / 256 % 256, n / 65536 % 256, n / 16777216 % 256]

/-- Little-endian encoding on a given number of bytes (varint payloads). -/
def leBytes : Nat → Nat → List Nat
  | 0, _ => []
  | k + 1, n => n % 256 :: leBytes k (n / 256)

/-- Bitcoin-style variable-length integer, as written by
`BinaryWriter::put_var_int`. -/
def put_var_int (n : Nat) : List Nat :=
  if n < 253 then [n]
  else if n < 65536 then 253 :: leBytes 2 n
  else if n < 4294967296 then 254 :: leBytes 4 n
  else 255 :: leBytes 8 n

/-- Decode a little-endian byte prefix of the given width. -/
def leDecode : List Nat → Nat
  | [] => 0
  | b :: rest => b + 256 * leDecode rest

/-- Bitcoin-style varint reader (`BinaryRefReader::get_var_int`): returns the
value and the remaining bytes, or none if the buffer is too short. -/
def get_var_int : List Nat → Option (Nat × List Nat)
  | [] => none
  | b :: rest =>
    if b < 253 then some (b, rest)
    else
      let k := if b = 253 then 2 else if b = 254 then 4 else 8
      if rest.length < k then none
      else some (leDecode (rest.take k), rest.drop k)

/-- Strict sequencing: reducing `seqN a b` forces the value of `a` before
producing `b` (both branches coincide).  The fuel-driven loops below thread
their accumulators through it so that kernel reduction evaluates them
iteration by iteration; under plain call-by-name the pending work would
nest as deeply as the iteration count. -/
def seqN (a : Nat) (b : α) : α := if a % 2 = 0 then b else b

/-- Split a list into chunks of `n` elements (fuel-driven). -/
def chunksF : Nat → Nat → List Nat → List (List Nat)
  | 0, _, _ => []
  | _, _, [] => []
  | fuel + 1, n, l => l.take n :: chunksF fuel n (l.drop n)

/-- Split a byte list into chunks of `n` bytes. -/
def chunks (n : Nat) (l : List Nat) : List (List Nat) := chunksF l.length n l

/-! ## SHA-256 and SHA-512 (FIPS 180-4)

The hash cores run on a packed representation: a byte string is its length
together with its value as a big-endian natural number, so that every step
of the compression is machine arithmetic on literals.  The message schedule
and the rounds are merged into one loop over a sliding 16-word window. -/

/-- Interpret a byte string as a big-endian natural number. -/
def beDecode (bs : List Nat) : Nat := bs.foldl (fun a b => a * 256 + b) 0

/-- Big-endian fixed-width byte encoding of a natural number. -/
def beBytes (k n : Nat) : List Nat := (leBytes k n).reverse

/-- The eight working variables of a SHA compression. -/
abbrev Word8 := Nat × Nat × Nat × Nat × Nat × Nat × Nat × Nat

/-- Rotate a 32-bit word right by `n`. -/
def rotr32 (n x : Nat) : Nat := w32 ((x >>> n) ||| (x <<< (32 - n)))

/-- Bitwise complement within 32 bits. -/
def not32 (x : Nat) : Nat := 4294967295 - w32 x

/-- The 64 SHA-256 round constants, packed big-endian (word `i` at weight
`2 ^ (32 * (63 - i))`). -/
def sha256KPacked : Nat := 8399870144517823301722239222130927227141849779511242471197906795369846673996008864786532278482947930035050432913372875699354429524650716672308175015812472005008943341011247634627600705591103756174659437448007297240981034636327441933849465611186184660803773840414514428031635770391245199770927811112653141372483794982516161135727373084047811483050876080270389320947077305721183235613169389468744126235534648516788175255292025668825020963291224099932572215580391753777671218957634024159536228058522778003881673030597872562207069818177476920296259993961459554031943090626293016819766823808480230688357231269177224952050

/-- SHA-256 initial hash state. -/
def sha256Init : Word8 :=
  (1779033703, 3144134277, 1013904242, 2773480762,
   1359893119, 2600822924, 528734635, 1541459225)

/-- Merged SHA-256 message schedule and compression: `window` packs the
sixteen words `W[t] .. W[t+15]` and `fuel` counts the remaining rounds
down from 64. -/
def sha256Loop : Nat → Nat → Word8 → Word8
  | 0, _, st => st
  | fuel + 1, window, st =>
    match st with
    | (a, b, c, d, e, f, g, h) =>
      let w0 := window >>> 480
      let w1 := window >>> 448 % 4294967296
      let w9 := window >>> 192 % 4294967296
      let w14 := window >>> 32 % 4294967296
      let sg0 := (rotr32 7 w1) ^^^ (rotr32 18 w1) ^^^ (w1 >>> 3)
      let sg1 := (rotr32 17 w14) ^^^ (rotr32 19 w14) ^^^ (w14 >>> 10)
      let window2 := (window * 4294967296 + (w0 + sg0 + w9 + sg1) % 4294967296) % 2 ^ 512
      let k := sha256KPacked >>> (32 * fuel) % 4294967296
      let s1 := (rotr32 6 e) ^^^ (rotr32 11 e) ^^^ (rotr32 25 e)
      let ch := (e &&& f) ^^^ ((not32 e) &&& g)
      let t1 := (h + s1 + ch + k + w0) % 4294967296
      let s0 := (rotr32 2 a) ^^^ (rotr32 13 a) ^^^ (rotr32 22 a)
      let mj := (a &&& b) ^^^ (a &&& c) ^^^ (b &&& c)
      let t2 := (s0 + mj) % 4294967296
      seqN (window2 + a + b + c + d + e + f + g)
        (sha256Loop fuel window2
          ((t1 + t2) % 4294967296, a, b, c, (d + t1) % 4294967296, e, f, g))

/-- SHA-256 compression of one packed 64-byte block into the running state. -/
def sha256BlockN (st : Word8) (block : Nat) : Word8 :=
  match st, sha256Loop 64 block st with
  | (a0, b0, c0, d0, e0, f0, g0, h0), (a, b, c, d, e, f, g, h) =>
    ((a0 + a) % 4294967296, (b0 + b) % 4294967296, (c0 + c) % 4294967296,
     (d0 + d) % 4294967296, (e0 + e) % 4294967296, (f0 + f) % 4294967296,
     (g0 + g) % 4294967296, (h0 + h) % 4294967296)

/-- Fold a compression function over the blocks of a packed padded message,
most significant block first. -/
def shaBlocksLoop (cf : Word8 → Nat → Word8) (bits padded : Nat) :
    Nat → Word8 → Word8
  | 0, st => st
  | rem + 1, st =>
    match cf st (padded >>> (bits * rem) % 2 ^ bits) with
    | (a, b, c, d, e, f, g, h) =>
      seqN (a + b + c + d + e + f + g + h)
        (shaBlocksLoop cf bits padded rem (a, b, c, d, e, f, g, h))

/-- SHA-256 of a packed message of `len` bytes, as a packed 32-byte value. -/
def sha256Nat (len m : Nat) : Nat :=
  let z := (64 - (len + 9) % 64) % 64
  let padded := (m * 256 + 128) * 256 ^ (z + 8) + 8 * len
  match shaBlocksLoop sha256BlockN 512 padded ((len + 9 + z) / 64) sha256Init with
  | (a, b, c, d, e, f, g, h) =>
    ((((((a * 4294967296 + b) * 4294967296 + c) * 4294967296 + d) * 4294967296 + e) *
      4294967296 + f) * 4294967296 + g) * 4294967296 + h

/-- SHA-256 of a byte string (`CryptoSHA2::getSha256`). -/
def sha256 (msg : List Nat) : List Nat :=
  let d := sha256Nat msg.length (beDecode msg)
  seqN d (beBytes 32 d)

/-- Double SHA-256, `BtcUtils::hash256` (the hash the spec calls hash256). -/
def hash256 (msg : List Nat) : List Nat := sha256 (sha256 msg)

/-- Rotate a 64-bit word right by `n`. -/
def rotr64 (n x : Nat) : Nat := w64 ((x >>> n) ||| (x <<< (64 - n)))

/-- Bitwise complement within 64 bits. -/
def not64 (x : Nat) : Nat := 18446744073709551615 - w64 x

/-- The 80 SHA-512 round constants, packed big-endian (word `i` at weight
`2 ^ (64 * (79 - i))`). -/
def sha512KPacked : Nat := 48799935969327324317454573271128211996440901110400544753559103821140222242040462765270234685523415735995734265097513028069214629696127979330504410405068363803640233105338079081690014599517965252282902265922514186354389730723821336489964343756820536605654444877666242259603869016454930259399203385789115481284128692419414590607127426642313384205579347747807725147450357543486256163163363051350049773588967095775245197315559294335762735378556843320130960897574247446182386460794773627164275325009070427085921379465654990694584378776354857962470583065604196649141018181788046408836182578304651239388246191266194599170214898407978275708542313525481944943791292663188267013858047788675571291518291767397893788831357177081564947100231585314834427267038616161088749070254373879016536820179976389635834987969044592205909257778209502652317833336445460759802297511004432793915890434672386862944949451528339913580416727182718006143577694617139966621035549122068101259789798862478901707014934124919677825097134076215624466281759833855116396395425705802245089712907615744067185603897215884939925953919278825196024154999384124518734748507524409725879337338070005985029194376330341555524948417948559862415272910046531059558864624317299301013910461863067320714832076875795237158048621691629967068548530980353771592785504721687805621062678333221276735719867596878593870432314647094225182154583386567771692989139208270713419265002907666919576071253477518940519317940984776946509824148520783016083114851071853476935659681590930623782712572919435319497240041495

/-- SHA-512 initial hash state. -/
def sha512Init : Word8 :=
  (7640891576956012808, 13503953896175478587, 4354685564936845355, 11912009170470909681,
   5840696475078001361, 11170449401992604703, 2270897969802886507, 6620516959819538809)

/-- Merged SHA-512 message schedule and compression: `window` packs the
sixteen words `W[t] .. W[t+15]` and `fuel` counts the remaining rounds
down from 80. -/
def sha512Loop : Nat → Nat → Word8 → Word8
  | 0, _, st => st
  | fuel + 1, window, st =>
    match st with
    | (a, b, c, d, e, f, g, h) =>
      let w0 := window >>> 960
      let w1 := window >>> 896 % 18446744073709551616
      let w9 := window >>> 384 % 18446744073709551616
      let w14 := window >>> 64 % 18446744073709551616
      let sg0 := (rotr64 1 w1) ^^^ (rotr64 8 w1) ^^^ (w1 >>> 7)
      let sg1 := (rotr64 19 w14) ^^^ (rotr64 61 w14) ^^^ (w14 >>> 6)
      let window2 :=
        (window * 18446744073709551616 + (w0 + sg0 + w9 + sg1) % 18446744073709551616) % 2 ^ 1024
      let k := sha512KPacked >>> (64 * fuel) % 18446744073709551616
      let s1 := (rotr64 14 e) ^^^ (rotr64 18 e) ^^^ (rotr64 41 e)
      let ch := (e &&& f) ^^^ ((not64 e) &&& g)
      let t1 := (h + s1 + ch + k + w0) % 18446744073709551616
      let s0 := (rotr64 28 a) ^^^ (rotr64 34 a) ^^^ (rotr64 39 a)
      let mj := (a &&& b) ^^^ (a &&& c) ^^^ (b &&& c)
      let t2 := (s0 + mj) % 18446744073709551616
      seqN (window2 + a + b + c + d + e + f + g)
        (sha512Loop fuel window2
          ((t1 + t2) % 18446744073709551616, a, b, c, (d + t1) % 18446744073709551616, e, f, g))

/-- SHA-512 compression of one packed 128-byte block into the running state. -/
def sha512BlockN (st : Word8) (block : Nat) : Word8 :=
  match st, sha512Loop 80 block st with
  | (a0, b0, c0, d0, e0, f0, g0, h0), (a, b, c, d, e, f, g, h) =>
    ((a0 + a) % 18446744073709551616, (b0 + b) % 18446744073709551616,
     (c0 + c) % 18446744073709551616, (d0 + d) % 18446744073709551616,
     (e0 + e) % 18446744073709551616, (f0 + f) % 18446744073709551616,
     (g0 + g) % 18446744073709551616, (h0 + h) % 18446744073709551616)

/-- SHA-512 of a packed message of `len` bytes, as a packed 64-byte value
(16-byte length field; the high 8 bytes are zero for any message this
development manipulates). -/
def sha512Nat (len m : Nat) : Nat :=
  let z := (128 - (len + 17) % 128) % 128
  let padded := (m * 256 + 128) * 256 ^ (z + 16) + 8 * len
  match shaBlocksLoop sha512BlockN 1024 padded ((len + 17 + z) / 128) sha512Init with
  | (a, b, c, d, e, f, g, h) =>
    ((((((a * 18446744073709551616 + b) * 18446744073709551616 + c) * 18446744073709551616 + d) *
      18446744073709551616 + e) * 18446744073709551616 + f) * 18446744073709551616 + g) *
      18446744073709551616 + h

/-- SHA-512 of a byte string (`CryptoSHA2::getSha512`). -/
def sha512 (msg : List Nat) : List Nat :=
  let d := sha512Nat msg.length (beDecode msg)
  seqN d (beBytes 64 d)

/-! ## HMAC (RFC 2104) -/

/-- Generic HMAC on the packed representation: `hashN` maps (length, packed
message) to the packed digest of `outLen` bytes; the block size is
`blockLen` bytes. -/
def hmacNat (hashN : Nat → Nat → Nat) (blockLen outLen keyLen keyV msgLen msgV : Nat) : Nat :=
  let kl := if blockLen < keyLen then outLen else keyLen
  let kv := if blockLen < keyLen then hashN keyLen keyV else keyV
  let k1 := kv * 256 ^ (blockLen - kl)
  let rep := (256 ^ blockLen - 1) / 255
  let inner := hashN (blockLen + msgLen) ((k1 ^^^ (54 * rep)) * 256 ^ msgLen + msgV)
  seqN inner (hashN (blockLen + outLen) ((k1 ^^^ (92 * rep)) * 256 ^ outLen + inner))

/-- HMAC-SHA-256, `BtcUtils::getHMAC256(key, msg)`. -/
def getHMAC256 (key msg : List Nat) : List Nat :=
  let d := hmacNat sha256Nat 64 32 key.length (beDecode key) msg.length (beDecode msg)
  seqN d (beBytes 32 d)

/-- HMAC-SHA-512, `BtcUtils::getHMAC512(key, msg)`. -/
def getHMAC512 (key msg : List Nat) : List Nat :=
  let d := hmacNat sha512Nat 128 64 key.length (beDecode key) msg.length (beDecode msg)
  seqN d (beBytes 64 d)

/-! ## AES-256 (FIPS 197)

The S-boxes and the GF(2^8) multiplication tables are packed 256-byte
constants (byte `b` sits at weight `256 ^ (255 - b)`); the theorems
`gmulT2_spec` etc. below tie the multiplication tables to the loop-defined
GF(2^8) product, and the FIPS-197 example vector pins the whole cipher. -/

/-- Byte `b` of a packed 256-byte table. -/
def tbl (t b : Nat) : Nat := t >>> (8 * (255 - b)) &&& 255

/-- The AES S-box, packed. -/
def sboxPacked : Nat := 12558969026229242650325497035900771229425977298929824185180201595218723846521641084878950437814262613818218678855083246390579973265062862098835367276463213485935490075333543022908418188023689628239853057430766867816104756072163930330964533854567180021957297209556449520724782473372358521936890038196263501971865464205202080665440031474485076128621298987969793026051666299271938394305982997346692361070006228877008335903374077985233742319271830419611735823883778589260764256621910077884203694152337712033528307796362819892376495515250925183618990912197919529504741016040626997946257218207277210591984163100337150147350

/-- The inverse AES S-box, packed. -/
def invSboxPacked : Nat := 10356184858566504128878601942622496275242693228079313684983116569819798996209173527593003368021229023876363323384733262149278851463030438663500693686801346715833557791125130929839401844560769943711121003356702945678988727346329947615072172420259545358729656174672132990152366281074681692304491847208674162238401376755537747833026981405637036885783507290874076477867953408079264825612764338732037345369762667537375464578428742481100056583175947700453671612833762452210319031427081092184050528144364839664090613348713426688004926426081610057099496475007433457233741482629272321140009049897313101452154868876381406694525

/-- Multiplication by x in GF(2^8) with the AES reduction polynomial. -/
def xtime (a : Nat) : Nat := if a < 128 then 2 * a else (2 * a - 256) ^^^ 27

/-- GF(2^8) product, 8-step Russian-peasant loop. -/
def gmulF : Nat → Nat → Nat → Nat
  | 0, _, _ => 0
  | fuel + 1, a, b => (if b % 2 = 1 then a else 0) ^^^ gmulF fuel (xtime a) (b / 2)

/-- GF(2^8) multiplication. -/
def gmul (a b : Nat) : Nat := gmulF 8 a b

/-- Pack a byte table into its 256-byte constant. -/
def packTbl (f : Nat → Nat) : Nat := (List.range 256).foldl (fun a i => a * 256 + f i) 0

/-- GF(2^8) multiplication by 2, packed. -/
def gmulT2 : Nat := 993987114842322408326486018874892793862179243974332457735650762861196620957105448464350677786171886618645688917244075955220901473294607338564802841567036774183187308490611183137260984248816673796110961580440371188828672622610373123009245500606725735350454313019186621849675536840940124832219989207964025537031697412657649297731268540251593425212478480712996286750037576585524140758202952032648321235576139747019661560563697810007207753740226927504462847675762318584208268380835808072325607184344650921202918417315190024291857947882013633159690462450314171069757709549290474353573044179198767928444526793068767205

/-- GF(2^8) multiplication by 3, packed. -/
def gmulT3 : Nat := 1490950574702576483748280830977352239183280514421224343077907399448896367463935209000892756155918754266496470840063774084537985064994195715036887666057463853379265253018885936413712867306506618373283885532604499344853654762580924311904405721561700901289817056801277956313037340643204276867904091335531941780404243850136520169882785709101023503322756246649294931087920401283045771004750842745533957286637710836098750445694401151944157534000982958150173450422198631595018017949514289474592143757579151704045324108680505854342331045779064393291597035264353299759767525706799114600637040506066161358799700950156843290

/-- GF(2^8) multiplication by 9, packed. -/
def gmulT9 : Nat := 4472942016790450837041468544422878492590067777610389743483532149951846195950161208606301076374011936114743150099043245790465058327085655507011285112740381348839079490148693278246741071131342731250853604140406608853369382782504836058333295862734675347920920528834033561443288453196623121641569311917629076858186243568929980306199649675907491737300366057167391872811039659130217358038441873709861821289939315435729377903013407823566719111533621768869295022769507270611653974441856928406045572418268684762627444534812913661108424539521923136405015809806123653566858961503684986863731487188003345475438303546050891590

/-- GF(2^8) multiplication by 11, packed. -/
def gmulT11 : Nat := 5466899032234828973649791980339913570963784715788098151771554729798540375757209452208038375538834121147710955647042943980584250667852599217779849042685636691179064524184041554061620454062055586706896136704335465131200908135514504784999020468633664281168912908493745075000759296517405977379560571422380166836736347842675293005710545616563064682295420631394753129496997867104535618630253661865619605297934650809345202732196134772375200529113075999369946741315079055399024399614022777417098556116455308868892566932673170461366073198950668609114382558980606543067642944404562773728577452999094022798193535458464868515

/-- GF(2^8) multiplication by 13, packed. -/
def gmulT13 : Nat := 6460795855312948567240303652656501632980301489359030429349904383692534392375391068037449109418269769951897615463346056449783679318396834690419177397548475824372891881683739607040538298182188929308021588262132718905896732870985048272580183870695940300941480325137237354454647698412171633736280381636521532444182218167779666068422782134986642545080209822632547499895171133703125948228892470062214477160117870953924847249095428748354179610253663030689675278718245565522313020924700789896584073509356044129489605596623434452215401899938062013752590669379439410350045018723221360014666604841369533436776542747306597015

/-- GF(2^8) multiplication by 14, packed. -/
def gmulT14 : Nat := 6957729216693833003929103750503041298143253208646530924282803461598259904300703663648150625287197349942853555548262935674379768490127171037949630519528697545909788710505873966993832189180354539020532011098879578333831633529669087584425469800632837473082432686496386862313917138877890342843197286763292852332575441212991677846988211937652326372310584838865561096345866690851352739094443377727918043351156695294678886162901899976890958985900782095637364983523579255803937989878044162482195710973231138850403185331827168171683289788266694250252738103219674383816756256413674951000135682966991857720837215975193543565

/-- Byte `i` of the packed 16-byte AES state (flat column-major order). -/
def stByte (s i : Nat) : Nat := s >>> (8 * (15 - i)) &&& 255

/-- Apply a byte map to every byte of the packed state. -/
def mapState (f : Nat → Nat) (s : Nat) : Nat :=
  (List.range 16).foldl (fun a i => a * 256 + f (stByte s i)) 0

/-- AES SubBytes. -/
def subBytesN (s : Nat) : Nat := mapState (tbl sboxPacked) s

/-- AES InvSubBytes. -/
def invSubBytesN (s : Nat) : Nat := mapState (tbl invSboxPacked) s

/-- AES ShiftRows on the packed column-major state. -/
def shiftRowsN (s : Nat) : Nat :=
  (List.range 16).foldl (fun a i => a * 256 + stByte s (4 * ((i / 4 + i % 4) % 4) + i % 4)) 0

/-- AES InvShiftRows on the packed column-major state. -/
def invShiftRowsN (s : Nat) : Nat :=
  (List.range 16).foldl (fun a i => a * 256 + stByte s (4 * ((i / 4 + 4 - i % 4) % 4) + i % 4)) 0

/-- AES MixColumns on the packed state. -/
def mixColumnsN (s : Nat) : Nat :=
  (List.range 4).foldl (fun a c =>
    let a0 := stByte s (4 * c)
    let a1 := stByte s (4 * c + 1)
    let a2 := stByte s (4 * c + 2)
    let a3 := stByte s (4 * c + 3)
    ((((a * 256 + (tbl gmulT2 a0 ^^^ tbl gmulT3 a1 ^^^ a2 ^^^ a3)) * 256 +
       (a0 ^^^ tbl gmulT2 a1 ^^^ tbl gmulT3 a2 ^^^ a3)) * 256 +
       (a0 ^^^ a1 ^^^ tbl gmulT2 a2 ^^^ tbl gmulT3 a3)) * 256 +
       (tbl gmulT3 a0 ^^^ a1 ^^^ a2 ^^^ tbl gmulT2 a3))) 0

/-- AES InvMixColumns on the packed state. -/
def invMixColumnsN (s : Nat) : Nat :=
  (List.range 4).foldl (fun a c =>
    let a0 := stByte s (4 * c)
    let a1 := stByte s (4 * c + 1)
    let a2 := stByte s (4 * c + 2)
    let a3 := stByte s (4 * c + 3)
    ((((a * 256 + (tbl gmulT14 a0 ^^^ tbl gmulT11 a1 ^^^ tbl gmulT13 a2 ^^^ tbl gmulT9 a3)) * 256 +
       (tbl gmulT9 a0 ^^^ tbl gmulT14 a1 ^^^ tbl gmulT11 a2 ^^^ tbl gmulT13 a3)) * 256 +
       (tbl gmulT13 a0 ^^^ tbl gmulT9 a1 ^^^ tbl gmulT14 a2 ^^^ tbl gmulT11 a3)) * 256 +
       (tbl gmulT11 a0 ^^^ tbl gmulT13 a1 ^^^ tbl gmulT9 a2 ^^^ tbl gmulT14 a3))) 0

/-- Rotate a 32-bit key-schedule word left by one byte. -/
def rotWord (w : Nat) : Nat := (w % 16777216) * 256 + w / 16777216

/-- Apply the S-box to each byte of a 32-bit key-schedule word. -/
def subWord (w : Nat) : Nat :=
  ((tbl sboxPacked (w >>> 24 &&& 255) * 256 + tbl sboxPacked (w >>> 16 &&& 255)) * 256 +
   tbl sboxPacked (w >>> 8 &&& 255)) * 256 + tbl sboxPacked (w &&& 255)

/-- One word of the AES-256 key schedule. -/
def keyExpandStep (ws : List Nat) : List Nat :=
  let i := ws.length
  let prev := ws.getD (i - 1) 0
  let t :=
    if i % 8 = 0 then subWord (rotWord prev) ^^^ (2 ^ (i / 8 - 1) <<< 24)
    else if i % 8 = 4 then subWord prev
    else prev
  ws ++ [ws.getD (i - 8) 0 ^^^ t]

/-- AES-256 key schedule: 60 round-key words from a 32-byte key. -/
def keyExpand (key : List Nat) : List Nat :=
  (List.range 52).foldl (fun ws _ => keyExpandStep ws) ((chunks 4 key).map beDecode)

/-- Round key `r` as a packed 16-byte value. -/
def roundKeyN (ws : List Nat) (r : Nat) : Nat :=
  ((ws.drop (4 * r)).take 4).foldl (fun a w => a * 4294967296 + w) 0

/-- AES-256 block encryption (14 rounds) on the packed state. -/
def aesEncBlockN (ws : List Nat) (block : Nat) : Nat :=
  let st0 := block ^^^ roundKeyN ws 0
  let stN := (List.range 13).foldl
    (fun st r =>
      let st2 := mixColumnsN (shiftRowsN (subBytesN st)) ^^^ roundKeyN ws (r + 1)
      seqN st2 st2) st0
  shiftRowsN (subBytesN stN) ^^^ roundKeyN ws 14

/-- AES-256 block decryption (inverse cipher) on the packed state. -/
def aesDecBlockN (ws : List Nat) (block : Nat) : Nat :=
  let st0 := block ^^^ roundKeyN ws 14
  let stN := (List.range 13).foldl
    (fun st r =>
      let st2 := invMixColumnsN (invSubBytesN (invShiftRowsN st) ^^^ roundKeyN ws (13 - r))
      seqN st2 st2) st0
  invSubBytesN (invShiftRowsN stN) ^^^ roundKeyN ws 0

/-- CBC encryption over the packed padded message, most significant block
first; `rem` counts the blocks still to process. -/
def cbcEncLoop (ws : List Nat) (data : Nat) : Nat → Nat → Nat → Nat
  | 0, _, acc => acc
  | rem + 1, prev, acc =>
    let blk := data >>> (128 * rem) % 340282366920938463463374607431768211456
    let c := aesEncBlockN ws (blk ^^^ prev)
    seqN c (cbcEncLoop ws data rem c (acc * 340282366920938463463374607431768211456 + c))

/-- CBC decryption over the packed ciphertext, most significant block first. -/
def cbcDecLoop (ws : List Nat) (data : Nat) : Nat → Nat → Nat → Nat
  | 0, _, acc => acc
  | rem + 1, prev, acc =>
    let blk := data >>> (128 * rem) % 340282366920938463463374607431768211456
    let p := aesDecBlockN ws blk ^^^ prev
    seqN p (cbcDecLoop ws data rem blk (acc * 340282366920938463463374607431768211456 + p))

/-- The PKCS#7 pad of width `p` as a packed value (`p` repeated `p` times). -/
def pkcs7Tail (p : Nat) : Nat := p * ((256 ^ p - 1) / 255)

/-- AES-256-CBC encryption with PKCS#7 padding, `CryptoAES::EncryptCBC(data, key, iv)`. -/
def encryptCBC (data key iv : List Nat) : List Nat :=
  let p := 16 - data.length % 16
  let nb := (data.length + p) / 16
  let d := beDecode data * 256 ^ p + pkcs7Tail p
  beBytes (16 * nb) (seqN d (cbcEncLoop (keyExpand key) d nb (beDecode iv) 0))

/-- AES-256-CBC decryption with PKCS#7 unpadding,
`CryptoAES::DecryptCBC(data, key, iv)`; fails (as the C++ throws) on an
empty or misaligned buffer or an invalid padding tail. -/
def decryptCBC (data key iv : List Nat) : Option (List Nat) :=
  if data.length = 0 ∨ data.length % 16 ≠ 0 then none
  else
    let d := beDecode data
    let pt := seqN d (cbcDecLoop (keyExpand key) d (data.length / 16) (beDecode iv) 0)
    let p := pt % 256
    if p = 0 ∨ 16 < p then none
    else if pt % 256 ^ p = pkcs7Tail p then
      some (beBytes (data.length - p) (pt >>> (8 * p)))
    else none

/-! ## secp256k1 (as consumed through `CryptoECDSA`) -/

/-- The secp256k1 field prime. -/
def secpP : Nat :=
  115792089237316195423570985008687907853269984665640564039457584007908834671663

/-- The secp256k1 group order. -/
def secpN : Nat :=
  115792089237316195423570985008687907852837564279074904382605163141518161494337

/-- x-coordinate of the secp256k1 generator. -/
def secpGx : Nat :=
  55066263022277343669578718895168534326250603453777594175500187360389116729240

/-- y-coordinate of the secp256k1 generator. -/
def secpGy : Nat :=
  32670510020758816978083085130507043184471273380659243275938904335757337482424

/-- Field addition mod the secp256k1 prime. -/
def fadd (a b : Nat) : Nat := (a + b) % secpP

/-- Field subtraction mod the secp256k1 prime (left operand reduced). -/
def fsub (a b : Nat) : Nat := (a % secpP + secpP - b % secpP) % secpP

/-- Field multiplication mod the secp256k1 prime. -/
def fmul (a b : Nat) : Nat := a * b % secpP

/-- Binary modular exponentiation, fuel-driven and tail-recursive
(least-significant bit first), with the accumulator forced each step. -/
def powModF : Nat → Nat → Nat → Nat → Nat → Nat
  | 0, _, _, acc, _ => acc
  | fuel + 1, b, e, acc, m =>
    if e = 0 then acc
    else
      let acc2 := if e % 2 = 1 then acc * b % m else acc
      let b2 := b * b % m
      seqN (acc2 + b2) (powModF fuel b2 (e / 2) acc2 m)

/-- Binary modular exponentiation; `e + 1` units of fuel always cover the
`log e` halvings actually taken (the loop stops at exponent zero). -/
def powMod (b e m : Nat) : Nat := powModF (e + 1) (b % m) e (1 % m) m

/-- Modular inverse in the secp256k1 field, via Fermat. -/
def finv (a : Nat) : Nat := powMod a (secpP - 2) secpP

/-- A point in Jacobian coordinates; `z = 0` encodes the point at infinity. -/
structure JacPt where
  x : Nat
  y : Nat
  z : Nat
deriving DecidableEq, Repr

/-- The point at infinity. -/
def jacInf : JacPt := ⟨1, 1, 0⟩

/-- Jacobian point doubling on secp256k1 (curve coefficient a = 0). -/
def jacDouble (p : JacPt) : JacPt :=
  if p.z = 0 ∨ p.y = 0 then jacInf
  else
    let ys := fmul p.y p.y
    let s := fmul 4 (fmul p.x ys)
    let m := fmul 3 (fmul p.x p.x)
    let x3 := fsub (fmul m m) (fmul 2 s)
    let y3 := fsub (fmul m (fsub s x3)) (fmul 8 (fmul ys ys))
    ⟨x3, y3, fmul 2 (fmul p.y p.z)⟩

/-- Jacobian point addition on secp256k1. -/
def jacAdd (p q : JacPt) : JacPt :=
  if p.z = 0 then q
  else if q.z = 0 then p
  else
    let z1s := fmul p.z p.z
    let z2s := fmul q.z q.z
    let u1 := fmul p.x z2s
    let u2 := fmul q.x z1s
    let s1 := fmul p.y (fmul z2s q.z)
    let s2 := fmul q.y (fmul z1s p.z)
    if u1 = u2 then
      if s1 = s2 then jacDouble p else jacInf
    else
      let h := fsub u2 u1
      let r := fsub s2 s1
      let hs := fmul h h
      let hc := fmul h hs
      let u1hs := fmul u1 hs
      let x3 := fsub (fsub (fmul r r) hc) (fmul 2 u1hs)
      let y3 := fsub (fmul r (fsub u1hs x3)) (fmul s1 hc)
      ⟨x3, y3, fmul h (fmul p.z q.z)⟩

/-- Jacobian scalar multiplication, fuel-driven and tail-recursive
(least-significant bit first), with both carried points forced each step. -/
def jacMulF : Nat → Nat → JacPt → JacPt → JacPt
  | 0, _, acc, _ => acc
  | fuel + 1, k, acc, base =>
    if k = 0 then acc
    else
      let acc2 := if k % 2 = 1 then jacAdd acc base else acc
      let base2 := jacDouble base
      seqN (acc2.x + acc2.y + acc2.z + base2.x + base2.y + base2.z)
        (jacMulF fuel (k / 2) acc2 base2)

/-- Jacobian scalar multiplication; 257 halvings cover any 256-bit scalar. -/
def jacMul (k : Nat) (p : JacPt) : JacPt := jacMulF 257 k jacInf p

/-- Affine coordinates of a Jacobian point, or none for the point at infinity. -/
def toAffine (p : JacPt) : Option (Nat × Nat) :=
  if p.z = 0 then none
  else
    let zi := finv p.z
    let zi2 := fmul zi zi
    let ax := fmul p.x zi2
    let ay := fmul p.y (fmul zi2 zi)
    seqN (ax + ay) (some (ax, ay))

/-- Compressed 33-byte serialization of an affine point. -/
def compressPoint (xy : Nat × Nat) : List Nat :=
  (if xy.2 % 2 = 0 then 2 else 3) :: beBytes 32 xy.1

/-- Parse a compressed 33-byte public key into affine coordinates; fails on a
bad prefix or an x-coordinate that is not on the curve. -/
def decompressPoint (bs : List Nat) : Option (Nat × Nat) :=
  match bs with
  | pfx :: rest =>
    if (pfx = 2 ∨ pfx = 3) ∧ rest.length = 32 then
      let x := beDecode rest
      if x < secpP then
        let y2 := fadd (fmul x (fmul x x)) 7
        let y := powMod y2 ((secpP + 1) / 4) secpP
        if fmul y y = y2 then
          some (x, if y % 2 = pfx % 2 then y else secpP - y)
        else none
      else none
    else none
  | _ => none

/-- The generator as a Jacobian point. -/
def jacG : JacPt := ⟨secpGx, secpGy, 1⟩

/-- Scalar validity check, `CryptoECDSA::checkPrivKeyIsValid`: 32 bytes
representing a scalar in `[1, n-1]`. -/
def checkPrivKeyIsValid (priv : List Nat) : Bool :=
  priv.length = 32 && 0 < beDecode priv && beDecode priv < secpN

/-- Compressed public key of a private scalar,
`CryptoECDSA::ComputePublicKey(priv, true)`. -/
def computePublicKey (priv : List Nat) : Option (List Nat) :=
  (toAffine (jacMul (beDecode priv) jacG)).map compressPoint

/-- Multiply a compressed public key by a scalar,
`CryptoECDSA::PubKeyScalarMultiply`; fails on an invalid point or a
product at infinity. -/
def pubKeyScalarMultiply (pubKey scalar : List Nat) : Option (List Nat) :=
  match decompressPoint pubKey with
  | none => none
  | some (x, y) => (toAffine (jacMul (beDecode scalar) ⟨x, y, 1⟩)).map compressPoint

/-- Validity of a compressed public key,
`CryptoECDSA::VerifyPublicKeyValid`. -/
def verifyPublicKeyValid (pubKey : List Nat) : Bool :=
  (decompressPoint pubKey).isSome

/-! ## The on-disk IES record format (WalletTests.cpp fixtures) -/

/-- An on-disk record split into its IES fields, as in
`WalletInterfaceTest::getIESData`: 33-byte ephemeral public key, 16-byte IV,
AES ciphertext, plus the 4-byte database key the record sits under. -/
structure IESPacket where
  pubKey : List Nat
  iv : List Nat
  cipherText : List Nat
  dbKey : List Nat
deriving DecidableEq, Repr

/-- Failure modes of record decryption: the spec's `BadKey`/`Malformed` cases
surface as `badPoint`/`badCipher`/`malformed`/`looseEntry`, and `Tampered`
as `hmacMismatch` (the C++ throws `HMACMismatchException`). -/
inductive DecryptFailure where
  | badPoint
  | badCipher
  | malformed
  | looseEntry
  | hmacMismatch
deriving DecidableEq, Repr

/-- Read exactly `n` bytes (`BinaryRefReader::get_BinaryData(n)`); fails on a
short buffer. -/
def readBytes (n : Nat) (bs : List Nat) : Option (List Nat × List Nat) :=
  if bs.length < n then none else some (bs.take n, bs.drop n)

/-- `WalletInterfaceTest::generateKeyPair` (WalletTests.cpp:566-582): the
key-pair at counter `ctr` is the 32‖32 split of
`HMAC-SHA512(key = native bytes of ctr, msg = saltedRoot)`, with a validity
check on the decryption private key. -/
def generateKeyPair (saltedRoot : List Nat) (ctr : Nat) :
    Option (List Nat × List Nat) :=
  let hmacVal := getHMAC512 (u32NativeBytes ctr) saltedRoot
  let decrPrivKey := hmacVal.take 32
  let macKey := (hmacVal.drop 32).take 32
  if checkPrivKeyIsValid decrPrivKey then some (decrPrivKey, macKey) else none

/-- `WalletInterfaceTest::computeHmac` (WalletTests.cpp:592-606):
`HMAC-SHA256(macKey, varint(|k|) ‖ k ‖ varint(|v|) ‖ v ‖ dbKey)`. -/
def computeHmac (dbKey dataKey dataVal macKey : List Nat) : List Nat :=
  getHMAC256 macKey
    (put_var_int dataKey.length ++ dataKey ++
     put_var_int dataVal.length ++ dataVal ++ dbKey)

/-- `WalletInterfaceTest::decryptPair` (WalletTests.cpp:609-641): derive the
record key as `hash256` of the ECDH point, AES-CBC-decrypt, parse
`hmac ‖ varint(|k|) ‖ k ‖ varint(|v|) ‖ v`, reject trailing bytes, verify
the HMAC against the record's database key. -/
def decryptPair (packet : IESPacket) (privKey macKey : List Nat) :
    Except DecryptFailure (List Nat × List Nat) :=
  match pubKeyScalarMultiply packet.pubKey privKey with
  | none => .error .badPoint
  | some ecdhPubKey =>
    match decryptCBC packet.cipherText (hash256 ecdhPubKey) packet.iv with
    | none => .error .badCipher
    | some payload =>
      match readBytes 32 payload with
      | none => .error .malformed
      | some (hmacStored, r1) =>
        match get_var_int r1 with
        | none => .error .malformed
        | some (klen, r2) =>
          match readBytes klen r2 with
          | none => .error .malformed
          | some (dataKey, r3) =>
            match get_var_int r3 with
            | none => .error .malformed
            | some (vlen, r4) =>
              match readBytes vlen r4 with
              | none => .error .malformed
              | some (dataVal, r5) =>
                if r5.length ≠ 0 then .error .looseEntry
                else if computeHmac packet.dbKey dataKey dataVal macKey ≠ hmacStored then
                  .error .hmacMismatch
                else .ok (dataKey, dataVal)

/-- The ASCII bytes of "erased". -/
def erasedTag : List Nat := [101, 114, 97, 115, 101, 100]

/-- The ASCII bytes of "cycle". -/
def cycleTag : List Nat := [99, 121, 99, 108, 101]

/-- `WalletInterfaceTest::getErasurePacket` (WalletTests.cpp:652-660): the
value half of an erasure sentinel, `"erased" ‖ varint(4) ‖ be32(dbKeyInt)`. -/
def getErasurePacket (dbKeyInt : Nat) : List Nat :=
  erasedTag ++ put_var_int 4 ++ be32 dbKeyInt

/-- Modelled from the spec: the writer side of the record envelope (the
`DBInterface` implementation is not among the given sources).  The
plaintext is `hmac ‖ varint(|k|) ‖ k ‖ varint(|v|) ‖ v` with the HMAC
computed by `computeHmac` over the record's 4-byte big-endian counter. -/
def sealPlain (ctr : Nat) (dataKey dataVal macKey : List Nat) : List Nat :=
  computeHmac (be32 ctr) dataKey dataVal macKey ++
  put_var_int dataKey.length ++ dataKey ++
  put_var_int dataVal.length ++ dataVal

/-- Modelled from the spec: the writer encrypts each record to the slot
key-pair with a fresh ephemeral scalar and IV, deriving the AES key from
the ECDH point exactly as the reader `decryptPair` re-derives it (the
committed records decrypt in the tests, so writer and reader agree on
`hash256`).  Output is `E ‖ iv ‖ AES-CBC(key, iv, plaintext)` stored under
`be32(ctr)`. -/
def sealRecord (encPriv macKey ephPriv iv : List Nat) (ctr : Nat)
    (dataKey dataVal : List Nat) : Option IESPacket :=
  match computePublicKey encPriv, computePublicKey ephPriv with
  | some slotPub, some ephPub =>
    match pubKeyScalarMultiply slotPub ephPriv with
    | some shared =>
      some ⟨ephPub, iv,
            encryptCBC (sealPlain ctr dataKey dataVal macKey) (hash256 shared) iv,
            be32 ctr⟩
    | none => none
  | _, _ => none

/-- The record decryption key spelled the way the specification words it:
the SINGLE SHA-256 of the ECDH shared point (`encKey =
SHA-256(ECDH(ephemeralPub, slotPriv))`), for comparison with the source's
double-SHA-256 `hash256`. -/
def decryptPairSingleSha (packet : IESPacket) (privKey macKey : List Nat) :
    Except DecryptFailure (List Nat × List Nat) :=
  match pubKeyScalarMultiply packet.pubKey privKey with
  | none => .error .badPoint
  | some ecdhPubKey =>
    match decryptCBC packet.cipherText (sha256 ecdhPubKey) packet.iv with
    | none => .error .badCipher
    | some payload =>
      match readBytes 32 payload with
      | none => .error .malformed
      | some (hmacStored, r1) =>
        match get_var_int r1 with
        | none => .error .malformed
        | some (klen, r2) =>
          match readBytes klen r2 with
          | none => .error .malformed
          | some (dataKey, r3) =>
            match get_var_int r3 with
            | none => .error .malformed
            | some (vlen, r4) =>
              match readBytes vlen r4 with
              | none => .error .malformed
              | some (dataVal, r5) =>
                if r5.length ≠ 0 then .error .looseEntry
                else if computeHmac packet.dbKey dataKey dataVal macKey ≠ hmacStored then
                  .error .hmacMismatch
                else .ok (dataKey, dataVal)

/-! ## The encrypted KV engine (modelled from the spec)

The `DBInterface` / `WalletIfaceTransaction` implementation is not among
the given sources (only its tests are), so the engine is modelled from the
specification text, at the granularity the tests observe: record counters,
key-pair counters, cycle markers, erasure sentinels and the logical
key-value view. -/

/-- Modelled from the spec: the plaintext payload of one engine record — a
data record, a cycle marker (`("", "cycle")`) or an erasure sentinel
(`("", "erased" ‖ varint(4) ‖ be32 prev)`). -/
inductive RecPlain where
  | data (k v : List Nat)
  | cycleMarker
  | erasure (prev : Nat)
deriving DecidableEq, Repr

/-- The logical `(dataKey, dataVal)` pair a record's IES packet carries. -/
def recPair : RecPlain → List Nat × List Nat
  | .data k v => (k, v)
  | .cycleMarker => ([], cycleTag)
  | .erasure prev => ([], getErasurePacket prev)

/-- Modelled from the spec: one on-disk record slot — its 4-byte counter,
the key-pair counter it is encrypted to, the index of the entropy draw
(ephemeral scalar and IV) used to seal it, and its plaintext. -/
structure DBRec where
  ctr : Nat
  kpIdx : Nat
  eIdx : Nat
  plain : RecPlain
deriving DecidableEq, Repr

/-- Modelled from the spec: the state of one sub-DB — the live records in
chronological order, the next record counter (counters are never reused),
the current key-pair counter and the next entropy index. -/
structure DBState where
  recs : List DBRec
  top : Nat
  kpCtr : Nat
  eIdx : Nat
deriving DecidableEq, Repr

/-- The empty sub-DB before the first cycle marker. -/
def emptyDB : DBState := ⟨[], 0, 0, 0⟩

/-- Append a record at the next counter under the current key-pair. -/
def appendRec (s : DBState) (p : RecPlain) : DBState :=
  ⟨s.recs ++ [⟨s.top, s.kpCtr, s.eIdx, p⟩], s.top + 1, s.kpCtr, s.eIdx + 1⟩

/-- Modelled from the spec: rotating the key stream writes a cycle marker
under the current key-pair counter and increments it; every sub-DB starts
with one, and the engine writes a fresh one on each reopen. -/
def cycleDB (s : DBState) : DBState :=
  let s2 := appendRec s .cycleMarker
  ⟨s2.recs, s2.top, s2.kpCtr + 1, s2.eIdx⟩

/-- A freshly set-up sub-DB: one cycle marker under key-pair 0. -/
def freshDB : DBState := cycleDB emptyDB

/-- Whether a record is the data record of logical key `k`. -/
def isDataOf (k : List Nat) (r : DBRec) : Bool :=
  match r.plain with
  | .data k2 _ => k2 = k
  | _ => false

/-- The record counter currently holding logical key `k`, if any. -/
def findLive (s : DBState) (k : List Nat) : Option Nat :=
  (s.recs.find? (isDataOf k)).map (fun r => r.ctr)

/-- The logical value of key `k` as reconstructed from the records (this is
also what a reopen-and-scan, the spec's `loadAllEntries`, rebuilds:
cycle markers and erasure sentinels are filtered out). -/
def dbRead (s : DBState) (k : List Nat) : Option (List Nat) :=
  match s.recs.find? (isDataOf k) with
  | some r => match r.plain with
    | .data _ v => some v
    | _ => none
  | none => none

/-- Remove the record at counter `c` (its slot is secure-overwritten; the
counter becomes a permanent gap). -/
def deleteSlot (s : DBState) (c : Nat) : DBState :=
  ⟨s.recs.filter (fun r => r.ctr ≠ c), s.top, s.kpCtr, s.eIdx⟩

/-- A transaction-level mutation. -/
inductive TxOp where
  | ins (k v : List Nat)
  | er (k : List Nat)
deriving DecidableEq, Repr

/-- Modelled from the spec: committing one mutation.  An insert over a live
key and an erase both free the old slot and append an erasure sentinel
recording the freed counter; the insert then appends the new data record. -/
def applyOp (s : DBState) : TxOp → DBState
  | .ins k v =>
    match findLive s k with
    | some c => appendRec (appendRec (deleteSlot s c) (.erasure c)) (.data k v)
    | none => appendRec s (.data k v)
  | .er k =>
    match findLive s k with
    | some c => appendRec (deleteSlot s c) (.erasure c)
    | none => s

/-- Modelled from the spec: while a write transaction is open, a repeated
insert of the same key replaces the pending value in place (the tests
observe a single record for a key inserted twice in one transaction); an
erase drops any pending insert of the key and queues the erasure. -/
def dedupStep (acc : List TxOp) : TxOp → List TxOp
  | .ins k v =>
    if acc.any (fun op => match op with | .ins k2 _ => k2 = k | _ => false) then
      acc.map (fun op => match op with
        | .ins k2 _ => if k2 = k then .ins k v else op
        | other => other)
    else acc ++ [.ins k v]
  | .er k =>
    (acc.filter (fun op => match op with | .ins k2 _ => k2 ≠ k | _ => true)) ++ [.er k]

/-- The pending mutation list of a write transaction after deduplication. -/
def dedupOps (ops : List TxOp) : List TxOp := ops.foldl dedupStep []

/-- Modelled from the spec: committing a write transaction applies its
deduplicated mutations in order. -/
def commitOps (s : DBState) (ops : List TxOp) : DBState := (dedupOps ops).foldl applyOp s

/-- The value of `k` under the raw (un-deduplicated) pending ops: rightmost
mutation of `k` wins, `none` falls through to the database. -/
def opsLookup (ops : List TxOp) (k : List Nat) : Option (Option (List Nat)) :=
  ops.foldl (fun acc op => match op with
    | .ins k2 v => if k2 = k then some (some v) else acc
    | .er k2 => if k2 = k then some none else acc) none

/-- The logical view inside a live transaction: pending mutations shadow the
committed state. -/
def txGetData (s : DBState) (ops : List TxOp) (k : List Nat) : Option (List Nat) :=
  match opsLookup ops k with
  | some r => r
  | none => dbRead s k

/-- Counter `c` is an observable gap: it was assigned and its slot is gone. -/
def isGap (s : DBState) (c : Nat) : Prop := c < s.top ∧ ∀ r ∈ s.recs, r.ctr ≠ c

/-- One entropy draw of the record writer: an ephemeral secp256k1 scalar
and a 16-byte IV. -/
structure EntropyDraw where
  eph : List Nat
  iv : List Nat
deriving DecidableEq, Repr

/-- Modelled from the spec: the bytes of record `r` on disk, sealed to the
key-pair of its key-pair counter with the entropy draw of its index. -/
def sealDBRec (saltedRoot : List Nat) (ent : Nat → EntropyDraw) (r : DBRec) :
    Option IESPacket :=
  match generateKeyPair saltedRoot r.kpIdx with
  | none => none
  | some kp =>
    sealRecord kp.1 kp.2 (ent r.eIdx).eph (ent r.eIdx).iv r.ctr
      (recPair r.plain).1 (recPair r.plain).2

/-! ## Transactions (modelled from the spec) -/

/-- Transaction mode. -/
inductive TxMode where
  | read
  | write
deriving DecidableEq, Repr

/-- Errors of transaction acquisition. -/
inductive TxError where
  | txConflict (msg : String)
deriving DecidableEq, Repr

/-- Modelled from the spec: a live transaction over one sub-DB — the
snapshot it sees, its mode, its nesting depth and its pending mutations. -/
structure TxState where
  db : DBState
  mode : TxMode
  depth : Nat
  ops : List TxOp
deriving DecidableEq, Repr

/-- Modelled from the spec: acquiring a transaction.  With no live
transaction a fresh scope opens; nested same-mode acquisition shares the
live transaction's view and mutations; a read during a live write, or a
write during a live read, fails with `TxConflict: failed to create db tx`
(the message the tests expect). -/
def beginTx (cur : Option TxState) (db : DBState) (mode : TxMode) :
    Except TxError TxState :=
  match cur with
  | none => .ok ⟨db, mode, 1, []⟩
  | some t =>
    if t.mode = mode then .ok ⟨t.db, t.mode, t.depth + 1, t.ops⟩
    else .error (.txConflict "failed to create db tx")

/-- Queue an insert in a live write transaction. -/
def txInsert (t : TxState) (k v : List Nat) : TxState :=
  ⟨t.db, t.mode, t.depth, t.ops ++ [.ins k v]⟩

/-- Queue an erase in a live write transaction. -/
def txErase (t : TxState) (k : List Nat) : TxState :=
  ⟨t.db, t.mode, t.depth, t.ops ++ [.er k]⟩

/-- Read a key through a live transaction (pending mutations included). -/
def txView (t : TxState) (k : List Nat) : Option (List Nat) :=
  txGetData t.db t.ops k

/-- Modelled from the spec: leaving a transaction scope.  An inner scope
only decrements the depth — nothing commits or aborts; the outermost scope
of a writer commits the pending mutations, that of a reader just releases. -/
def endTxScope (t : TxState) : TxState ⊕ DBState :=
  if t.depth ≤ 1 then
    .inr (if t.mode = .write then commitOps t.db t.ops else t.db)
  else .inl ⟨t.db, t.mode, t.depth - 1, t.ops⟩

/-! ## The decrypted-data container (modelled from the spec) -/

/-- Modelled from the spec: one cipher-data slot of an encrypted object —
the id of the KDF-stretched key that encrypts it, the 16-byte IV and the
AES-256-CBC ciphertext. -/
structure CipherData where
  keyId : List Nat
  iv : List Nat
  cipherText : List Nat
deriving DecidableEq, Repr

/-- Build a slot encrypting `plain` under the stretched key `kdfKey` with
IV `iv`; the slot is identified by the hash of its key. -/
def mkSlot (kdfKey iv plain : List Nat) : CipherData :=
  ⟨hash256 kdfKey, iv, encryptCBC plain kdfKey iv⟩

/-- Try to decrypt an encrypted object with a stretched key: find the slot
carrying this key's id and decrypt it. -/
def unlockSlot (slots : List CipherData) (kdfKey : List Nat) : Option (List Nat) :=
  match slots.find? (fun s => s.keyId = hash256 kdfKey) with
  | none => none
  | some s => decryptCBC s.cipherText kdfKey s.iv

/-- Errors of the decrypted-data container. -/
inductive ContainerError where
  | alreadyLocked
  | wrongPassphrase
deriving DecidableEq, Repr

/-- Modelled from the spec: the decrypted-data container — the KDF (a black
box stretching passphrases), the master-key object's slots, the per-asset
encrypted private keys (encrypted under the master key), the lock flag,
every IV handed out so far, and a fresh-IV source. -/
structure DecryptedDataContainer where
  kdf : List Nat → List Nat
  masterSlots : List CipherData
  assetKeys : List CipherData
  locked : Bool
  usedIVs : List (List Nat)
  freshIV : Nat → List Nat
  eIdx : Nat

/-- Modelled from the spec: `changePassphrase(newProvider)` must be called
outside any lock (otherwise `AlreadyLocked`); it unlocks with the current
passphrase and rewrites the master-key object as a single slot under
`kdf(newPassphrase)` with a fresh IV, touching nothing else. -/
def changePassphrase (c : DecryptedDataContainer) (curPass newPass : List Nat) :
    Except ContainerError DecryptedDataContainer :=
  if c.locked then .error .alreadyLocked
  else
    match unlockSlot c.masterSlots (c.kdf curPass) with
    | none => .error .wrongPassphrase
    | some master =>
      let iv := c.freshIV c.eIdx
      .ok ⟨c.kdf, [mkSlot (c.kdf newPass) iv master], c.assetKeys, c.locked,
           c.usedIVs ++ [iv], c.freshIV, c.eIdx + 1⟩

/-- Decrypt the private key of asset `i` after unlocking the master key with
a passphrase. -/
def decryptAssetKey (c : DecryptedDataContainer) (pass : List Nat) (i : Nat) :
    Option (List Nat) :=
  match unlockSlot c.masterSlots (c.kdf pass) with
  | none => none
  | some master =>
    match c.assetKeys.get? i with
    | none => none
    | some s => decryptCBC s.cipherText master s.iv

/-! ## The watch-only fork (modelled from the spec)

The asset-model implementation (BIP32 nodes, `AssetWallet`) is not among
the given sources; what the claims need of it is that child public keys can
be derived from the parent public key alone and agree with the public keys
of privately derived children.  The model works in the multiplicative
group mod `mP`: the public key of a private scalar `k` is `mG ^ k mod mP`,
and a child tweak is an HMAC of the parent public key and the index, as in
BIP32 soft derivation. -/

/-- Modulus of the model group. -/
def mP : Nat := 2305843009213693951

/-- Generator of the model group. -/
def mG : Nat := 7

/-- Public key of a private scalar. -/
def mPubOf (k : Nat) : Nat := powMod mG k mP

/-- Child tweak: HMAC-SHA256 of the parent public key and the index. -/
def mTweak (pub idx : Nat) : Nat := beDecode (getHMAC256 (beBytes 32 pub) (be32 idx))

/-- Private derivation of the child at `idx`. -/
def mChildPriv (k idx : Nat) : Nat := k + mTweak (mPubOf k) idx

/-- Public derivation of the child at `idx` (parent public key only). -/
def mChildPub (pub idx : Nat) : Nat := pub * powMod mG (mTweak pub idx) mP % mP

/-- An asset: a public key and optionally the matching private key. -/
structure MAsset where
  pub : Nat
  priv : Option Nat
deriving DecidableEq, Repr

/-- A wallet: the root key material and the derived asset list. -/
structure MWallet where
  rootPriv : Option Nat
  rootPub : Nat
  assets : List MAsset
deriving DecidableEq, Repr

/-- A full wallet over private root `k`, with no assets derived yet. -/
def mkFullWallet (k : Nat) : MWallet := ⟨some k, mPubOf k, []⟩

/-- Modelled from the spec: the watch-only fork keeps every asset's public
key and strips all private material. -/
def forkWatchingOnly (w : MWallet) : MWallet :=
  ⟨none, w.rootPub, w.assets.map (fun a => ⟨a.pub, none⟩)⟩

/-- `extendPrivateChain n`: derive assets for the next `n` indices from the
private root (requires the decrypted private root). -/
def extendPrivateChain (w : MWallet) (n : Nat) : MWallet :=
  match w.rootPriv with
  | none => w
  | some k =>
    ⟨w.rootPriv, w.rootPub,
     w.assets ++ (List.range n).map (fun j =>
       let i := w.assets.length + j
       ⟨mPubOf (mChildPriv k i), some (mChildPriv k i)⟩)⟩

/-- `extendPublicChain n`: derive assets for the next `n` indices from the
public root alone. -/
def extendPublicChain (w : MWallet) (n : Nat) : MWallet :=
  ⟨w.rootPriv, w.rootPub,
   w.assets ++ (List.range n).map (fun j =>
     ⟨mChildPub w.rootPub (w.assets.length + j), none⟩)⟩

/-- The address of an asset: a hash of its public key. -/
def mAddress (a : MAsset) : List Nat := hash256 (beBytes 32 a.pub)

/-- Errors of the asset layer. -/
inductive WalletError where
  | watchOnly
deriving DecidableEq, Repr

/-- Modelled from the spec: requesting the decrypted private key of asset
`i`; on a watch-only wallet this fails with `WatchOnly`. -/
def getAssetPrivKey (w : MWallet) (i : Nat) : Except WalletError (Option Nat) :=
  match w.rootPriv with
  | none => .error .watchOnly
  | some _ => .ok ((w.assets.get? i).bind (fun a => a.priv))

/-- Modelled from the spec: transaction acquisition at the manager level —
on success the manager records the new live transaction, on failure the
manager (and with it the live transaction's view and pending mutations) is
left untouched. -/
def beginTxM (cur : Option TxState) (db : DBState) (mode : TxMode) :
    Except TxError TxState × Option TxState :=
  match beginTx cur db mode with
  | .ok t => (.ok t, some t)
  | .error e => (.error e, cur)

/-- A concrete master private key used to exercise the container. -/
def mW9 : List Nat := (List.range 16).map (fun b => b + 7)

/-- A concrete unlocked container: one master-key slot encrypted under the
stretched current passphrase `[1]`, with its IV already recorded as used. -/
def cW9 : DecryptedDataContainer :=
  ⟨fun p => sha256 p,
   [mkSlot (sha256 [1]) (List.range 16) mW9],
   [mkSlot mW9 ((List.range 16).map (fun b => b + 40)) ((List.range 16).map (fun b => b + 60))],
   false,
   [List.range 16],
   fun n => (List.range 16).map (fun b => b + n + 1),
   0⟩

/-- A concrete slot decryption private key (the scalar 5). -/
def ePrivW : List Nat := beBytes 32 5

/-- A concrete ephemeral private key (the scalar 7). -/
def ephPrivW : List Nat := beBytes 32 7

/-- A concrete slot MAC key. -/
def macKeyW : List Nat := List.range 32

/-- A concrete 16-byte IV. -/
def ivW : List Nat := (List.range 16).map (fun b => b + 1)

/-- The compressed public key of `ePrivW` (5 times the generator). -/
def slotPubW : List Nat :=
  [2, 47, 139, 222, 77, 26, 7, 32, 147, 85, 180, 167, 37, 10, 92, 81, 40, 232,
   139, 132, 189, 220, 97, 154, 183, 203, 168, 213, 105, 178, 64, 239, 228]

/-- The compressed public key of `ephPrivW` (7 times the generator). -/
def ephPubW : List Nat :=
  [2, 92, 189, 240, 100, 110, 93, 180, 234, 163, 152, 243, 101, 242, 234, 122,
   14, 61, 65, 155, 126, 3, 48, 227, 156, 233, 43, 221, 237, 202, 196, 249, 188]

/-- The compressed ECDH shared point of `ePrivW` and `ephPrivW` (35 times the
generator). -/
def sharedW : List Nat :=
  [3, 96, 91, 219, 1, 153, 129, 113, 139, 152, 109, 15, 7, 232, 52, 203, 13,
   157, 235, 131, 96, 255, 183, 246, 29, 249, 130, 52, 94, 242, 122, 116, 121]

/-- The key-pair derivation spelled the way the specification words it:
HMAC-SHA512 keyed by the 4-byte BIG-ENDIAN counter `be32(i)` instead of the
source's native in-memory bytes of the `uint32_t` counter, for comparison
with `generateKeyPair`. -/
def generateKeyPairBe32 (saltedRoot : List Nat) (ctr : Nat) :
    Option (List Nat × List Nat) :=
  let hmacVal := getHMAC512 (be32 ctr) saltedRoot
  let decrPrivKey := hmacVal.take 32
  let macKey := (hmacVal.drop 32).take 32
  if checkPrivKeyIsValid decrPrivKey then some (decrPrivKey, macKey) else none

/-- A concrete control salt. -/
def saltC2 : List Nat := List.range 32

/-- A concrete control root. -/
def rootC2 : List Nat := (List.range 32).map (fun b => b + 100)

/-- The salted root of `saltC2` and `rootC2`. -/
def srC2 : List Nat := getHMAC256 saltC2 rootC2

/-- A concrete entropy stream: ephemeral scalar `11 + 2n` and a distinct
16-byte IV per draw. -/
def entC2 : Nat → EntropyDraw :=
  fun n => ⟨beBytes 32 (11 + 2 * n), (List.range 16).map (fun b => b + n + 1)⟩

/-- The key-pair of `srC2` at counter 0. -/
def kp0C2 : List Nat × List Nat :=
  ([245, 84, 143, 240, 36, 148, 162, 37, 211, 13, 188, 179, 119, 219, 165, 252,
    117, 226, 108, 57, 246, 166, 84, 91, 51, 127, 131, 224, 2, 238, 230, 62],
   [19, 69, 171, 30, 243, 131, 90, 186, 52, 22, 208, 110, 85, 81, 18, 80,
    200, 199, 130, 147, 242, 101, 202, 244, 130, 80, 252, 15, 89, 63, 15, 169])

/-- The key-pair of `srC2` at counter 1. -/
def kp1C2 : List Nat × List Nat :=
  ([81, 230, 154, 193, 236, 86, 83, 194, 104, 198, 192, 6, 38, 65, 205, 47,
    73, 184, 195, 119, 228, 2, 31, 7, 102, 165, 14, 58, 146, 53, 11, 223],
   [108, 160, 170, 2, 169, 180, 244, 226, 203, 194, 160, 147, 210, 202, 109, 11,
    221, 109, 205, 99, 115, 185, 6, 213, 213, 237, 124, 129, 85, 110, 95, 241])

/-- The compressed public key of `kp0C2.1`. -/
def sp0C2 : List Nat :=
  [3, 235, 139, 175, 6, 50, 98, 50, 15, 206, 234, 145, 105, 7, 247, 109, 119,
   25, 246, 235, 238, 106, 205, 182, 94, 57, 109, 199, 66, 191, 98, 85, 191]

/-- The compressed public key of `kp1C2.1`. -/
def sp1C2 : List Nat :=
  [3, 245, 232, 137, 22, 190, 219, 201, 145, 242, 9, 30, 88, 102, 242, 113,
   122, 42, 1, 206, 13, 82, 122, 173, 96, 123, 199, 57, 10, 253, 135, 142, 147]

/-- The compressed ephemeral public key of draw 0 of `entC2`. -/
def e0C2 : List Nat :=
  [3, 119, 74, 231, 248, 88, 169, 65, 30, 94, 244, 36, 107, 112, 198, 90, 172,
   86, 73, 152, 11, 229, 193, 120, 145, 187, 236, 23, 137, 93, 160, 8, 203]

/-- The compressed ephemeral public key of draw 1 of `entC2`. -/
def e1C2 : List Nat :=
  [3, 242, 135, 115, 194, 217, 117, 40, 139, 199, 209, 210, 5, 195, 116, 134,
   81, 176, 117, 251, 198, 97, 14, 88, 205, 222, 237, 223, 143, 25, 64, 90, 168]

/-- The ECDH point of record 0 (key-pair 0, draw 0). -/
def sh0C2 : List Nat :=
  [2, 183, 123, 253, 80, 71, 124, 104, 112, 1, 188, 216, 247, 13, 233, 137,
   245, 198, 80, 147, 224, 160, 111, 53, 171, 175, 252, 82, 30, 218, 107, 65, 80]

/-- The ECDH point of record 1 (key-pair 1, draw 1). -/
def sh1C2 : List Nat :=
  [3, 0, 187, 163, 81, 184, 107, 131, 25, 236, 71, 229, 169, 82, 9, 20, 240,
   83, 189, 243, 217, 228, 159, 137, 220, 96, 134, 198, 181, 56, 189, 186, 93]

/-- The point a reader holding key-pair 0 derives from record 1's ephemeral
public key. -/
def shxC2 : List Nat :=
  [2, 158, 132, 61, 26, 220, 195, 49, 229, 72, 45, 234, 237, 182, 122, 151,
   30, 88, 145, 198, 253, 226, 53, 9, 67, 154, 66, 164, 50, 188, 69, 55, 169]

/-- The compressed ephemeral public key of draw 2 of `entC2`. -/
def e2C3 : List Nat :=
  [2, 215, 146, 77, 79, 125, 67, 234, 150, 90, 70, 90, 227, 9, 95, 244, 17,
   49, 229, 148, 111, 60, 133, 247, 158, 68, 173, 188, 248, 226, 126, 8, 14]

/-- The ECDH point of key-pair 1 with draw 2 of `entC2`. -/
def sh2C3 : List Nat :=
  [2, 70, 103, 129, 40, 206, 120, 218, 56, 82, 42, 171, 169, 134, 26, 186,
   154, 150, 58, 118, 212, 2, 241, 11, 190, 30, 144, 20, 28, 59, 153, 88, 194]

deriving instance DecidableEq for Except

/-! ## Shared lemmas -/

/-- The strict-sequencing combinator is the identity on its second argument. -/
theorem seqN_eq (a : Nat) (b : α) : seqN a b = b := by
  unfold seqN; split <;> rfl

/-- `leBytes` always produces exactly `k` bytes. -/
theorem leBytes_length (k n : Nat) : (leBytes k n).length = k := by
  induction k generalizing n with
  | zero => rfl
  | succ k ih => simp [leBytes, ih]

/-- `beBytes` always produces exactly `k` bytes. -/
theorem beBytes_length (k n : Nat) : (beBytes k n).length = k := by
  simp [beBytes, leBytes_length]

/-- Little-endian decoding inverts little-endian encoding below `256 ^ k`. -/
theorem leDecode_leBytes (k n : Nat) (h : n < 256 ^ k) : leDecode (leBytes k n) = n := by
  induction k generalizing n with
  | zero => simp [pow_zero, Nat.lt_one_iff] at h; simp [h, leBytes, leDecode]
  | succ k ih =>
    have hdiv : n / 256 < 256 ^ k := by
      rw [Nat.div_lt_iff_lt_mul (by norm_num)]
      calc n < 256 ^ (k + 1) := h
        _ = 256 ^ k * 256 := by ring
    simp [leBytes, leDecode, ih (n / 256) hdiv]
    omega

/-- The varint reader inverts the varint writer (for any 64-bit size). -/
theorem get_var_int_put (n : Nat) (rest : List Nat) (h : n < 18446744073709551616) :
    get_var_int (put_var_int n ++ rest) = some (n, rest) := by
  by_cases h1 : n < 253
  · simp [put_var_int, h1, get_var_int]
  · by_cases h2 : n < 65536
    · have hl : (leBytes 2 n).length = 2 := leBytes_length 2 n
      simp only [put_var_int, if_neg h1, if_pos h2, List.cons_append, get_var_int]
      norm_num [List.length_append, hl]
      exact leDecode_leBytes 2 n (by norm_num; omega)
    · by_cases h3 : n < 4294967296
      · have hl : (leBytes 4 n).length = 4 := leBytes_length 4 n
        simp only [put_var_int, if_neg h1, if_neg h2, if_pos h3, List.cons_append, get_var_int]
        norm_num [List.length_append, hl]
        exact leDecode_leBytes 4 n (by norm_num; omega)
      · have hl : (leBytes 8 n).length = 8 := leBytes_length 8 n
        simp only [put_var_int, if_neg h1, if_neg h2, if_neg h3, List.cons_append, get_var_int]
        norm_num [List.length_append, hl]
        exact leDecode_leBytes 8 n (by norm_num; omega)

/-- Reading back exactly the bytes that were placed at the front. -/
theorem readBytes_append (bs rest : List Nat) :
    readBytes bs.length (bs ++ rest) = some (bs, rest) := by
  simp [readBytes, List.take_left, List.drop_left]

/-- HMAC-SHA-256 digests are 32 bytes. -/
theorem getHMAC256_length (key msg : List Nat) : (getHMAC256 key msg).length = 32 := by
  simp [getHMAC256, seqN_eq, beBytes_length]

/-- The record HMAC is 32 bytes. -/
theorem computeHmac_length (dbKey k v mac : List Nat) :
    (computeHmac dbKey k v mac).length = 32 := by
  simp [computeHmac, getHMAC256_length]

/-- Reading back exactly a whole buffer. -/
theorem readBytes_self (bs : List Nat) : readBytes bs.length bs = some (bs, []) := by
  simpa using readBytes_append bs []

/-- The reader inverts the writer: a record sealed by the writer model
parses and verifies under `decryptPair`, provided the reader-side ECDH
yields the shared point the writer used (`hrd`) and AES-CBC decryption
inverts encryption at these inputs (`hcbc`).  The parsing, the slot-bound
HMAC recomputation and its comparison are unconditional. -/
theorem decryptPair_seal (encPriv macKey ephPub shared iv k v : List Nat) (ctr : Nat)
    (hk : k.length < 18446744073709551616)
    (hv : v.length < 18446744073709551616)
    (hrd : pubKeyScalarMultiply ephPub encPriv = some shared)
    (hcbc : decryptCBC (encryptCBC (sealPlain ctr k v macKey) (hash256 shared) iv)
              (hash256 shared) iv = some (sealPlain ctr k v macKey)) :
    decryptPair ⟨ephPub, iv, encryptCBC (sealPlain ctr k v macKey) (hash256 shared) iv, be32 ctr⟩
      encPriv macKey = .ok (k, v) := by
  unfold decryptPair
  simp only [hrd, hcbc]
  have h1 : sealPlain ctr k v macKey =
      computeHmac (be32 ctr) k v macKey ++
        (put_var_int k.length ++ (k ++ (put_var_int v.length ++ (v ++ [])))) := by
    simp [sealPlain]
  rw [h1, show (32 : Nat) = (computeHmac (be32 ctr) k v macKey).length from
    (computeHmac_length _ _ _ _).symm, readBytes_append]
  simp only [get_var_int_put k.length _ hk, readBytes_append,
    get_var_int_put v.length _ hv]
  simp

/-! ## Engine invariants -/

/-- Well-formedness of a sub-DB: every record counter is below `top`, every
entropy index below `eIdx`, every key-pair index at most `kpCtr`, and both
counters and entropy indices are pairwise distinct. -/
def WFdb (s : DBState) : Prop :=
  (∀ r ∈ s.recs, r.ctr < s.top ∧ r.eIdx < s.eIdx ∧ r.kpIdx ≤ s.kpCtr) ∧
  s.recs.Pairwise (fun r1 r2 => r1.ctr ≠ r2.ctr ∧ r1.eIdx ≠ r2.eIdx)

/-- The empty sub-DB is well-formed. -/
theorem wf_emptyDB : WFdb emptyDB := by
  constructor <;> simp [emptyDB]

/-- Appending a record preserves well-formedness. -/
theorem wf_appendRec (s : DBState) (p : RecPlain) (h : WFdb s) : WFdb (appendRec s p) := by
  obtain ⟨hb, hp⟩ := h
  constructor
  · intro r hr
    simp [appendRec] at hr
    rcases hr with hr | hr
    · have := hb r hr
      exact ⟨Nat.lt_succ_of_lt this.1, Nat.lt_succ_of_lt this.2.1, this.2.2⟩
    · subst hr; exact ⟨Nat.lt_succ_self _, Nat.lt_succ_self _, le_refl _⟩
  · simp [appendRec, List.pairwise_append]
    refine ⟨hp, ?_⟩
    intro r hr
    have := hb r hr
    omega

/-- Deleting a slot preserves well-formedness. -/
theorem wf_deleteSlot (s : DBState) (c : Nat) (h : WFdb s) : WFdb (deleteSlot s c) := by
  obtain ⟨hb, hp⟩ := h
  constructor
  · intro r hr
    exact hb r (List.mem_of_mem_filter hr)
  · exact hp.sublist (List.filter_sublist _)

/-- Cycling preserves well-formedness. -/
theorem wf_cycleDB (s : DBState) (h : WFdb s) : WFdb (cycleDB s) := by
  have h2 := wf_appendRec s .cycleMarker h
  obtain ⟨hb, hp⟩ := h2
  constructor
  · intro r hr
    have := hb r hr
    exact ⟨this.1, this.2.1, le_trans this.2.2 (Nat.le_succ _)⟩
  · exact hp

/-- Committing one mutation preserves well-formedness. -/
theorem wf_applyOp (s : DBState) (op : TxOp) (h : WFdb s) : WFdb (applyOp s op) := by
  cases op with
  | ins k v =>
    simp only [applyOp]
    cases hfl : findLive s k with
    | none => exact wf_appendRec s _ h
    | some c => exact wf_appendRec _ _ (wf_appendRec _ _ (wf_deleteSlot s c h))
  | er k =>
    simp only [applyOp]
    cases hfl : findLive s k with
    | none => exact h
    | some c => exact wf_appendRec _ _ (wf_deleteSlot s c h)

/-- Committing a mutation list preserves well-formedness. -/
theorem wf_foldl_applyOp (ops : List TxOp) (s : DBState) (h : WFdb s) :
    WFdb (ops.foldl applyOp s) := by
  induction ops generalizing s with
  | nil => exact h
  | cons op rest ih => exact ih (applyOp s op) (wf_applyOp s op h)

/-- Committing a transaction preserves well-formedness. -/
theorem wf_commitOps (s : DBState) (ops : List TxOp) (h : WFdb s) :
    WFdb (commitOps s ops) := wf_foldl_applyOp _ s h

/-- Records of a committed state either predate the commit or sit at fresh
counters and entropy indices, under the current key-pair counter. -/
theorem applyOp_recs (s : DBState) (op : TxOp) :
    ∀ r ∈ (applyOp s op).recs,
      r ∈ s.recs ∨ (s.top ≤ r.ctr ∧ s.eIdx ≤ r.eIdx ∧ r.kpIdx = s.kpCtr) := by
  intro r hr
  cases op with
  | ins k v =>
    simp only [applyOp] at hr
    cases hfl : findLive s k with
    | none =>
      rw [hfl] at hr
      simp [appendRec] at hr
      rcases hr with hr | hr
      · exact Or.inl hr
      · subst hr; exact Or.inr (by simp [le_refl])
    | some c =>
      rw [hfl] at hr
      simp [appendRec, deleteSlot] at hr
      rcases hr with hr | hr | hr
      · exact Or.inl hr.1
      · subst hr; exact Or.inr (by simp [le_refl])
      · subst hr; exact Or.inr (by simp)
  | er k =>
    simp only [applyOp] at hr
    cases hfl : findLive s k with
    | none => rw [hfl] at hr; exact Or.inl hr
    | some c =>
      rw [hfl] at hr
      simp [appendRec, deleteSlot] at hr
      rcases hr with hr | hr
      · exact Or.inl hr.1
      · subst hr; exact Or.inr (by simp [le_refl])

/-- `applyOp` only moves the counters forward and keeps the key-pair. -/
theorem applyOp_mono (s : DBState) (op : TxOp) :
    s.top ≤ (applyOp s op).top ∧ s.eIdx ≤ (applyOp s op).eIdx ∧
      (applyOp s op).kpCtr = s.kpCtr := by
  cases op with
  | ins k v =>
    simp only [applyOp]
    cases findLive s k <;> simp [appendRec, deleteSlot] <;> omega
  | er k =>
    simp only [applyOp]
    cases findLive s k <;> simp [appendRec, deleteSlot] <;> omega

/-- Folded version of `applyOp_recs`. -/
theorem foldl_applyOp_recs (ops : List TxOp) (s : DBState) :
    ∀ r ∈ (ops.foldl applyOp s).recs,
      r ∈ s.recs ∨ (s.top ≤ r.ctr ∧ s.eIdx ≤ r.eIdx ∧ r.kpIdx = s.kpCtr) := by
  induction ops generalizing s with
  | nil => intro r hr; exact Or.inl hr
  | cons op rest ih =>
    intro r hr
    have hm := applyOp_mono s op
    rcases ih (applyOp s op) r hr with h | h
    · rcases applyOp_recs s op r h with h2 | h2
      · exact Or.inl h2
      · exact Or.inr h2
    · exact Or.inr ⟨le_trans hm.1 h.1, le_trans hm.2.1 h.2.1, hm.2.2 ▸ h.2.2⟩

/-- Folded version of `applyOp_mono`. -/
theorem foldl_applyOp_mono (ops : List TxOp) (s : DBState) :
    s.top ≤ (ops.foldl applyOp s).top ∧ s.eIdx ≤ (ops.foldl applyOp s).eIdx ∧
      (ops.foldl applyOp s).kpCtr = s.kpCtr := by
  induction ops generalizing s with
  | nil => exact ⟨le_refl _, le_refl _, rfl⟩
  | cons op rest ih =>
    have hm := applyOp_mono s op
    have hr := ih (applyOp s op)
    exact ⟨le_trans hm.1 hr.1, le_trans hm.2.1 hr.2.1, hr.2.2.trans hm.2.2⟩

/-- Committed-state version of `applyOp_recs`. -/
theorem commitOps_recs (s : DBState) (ops : List TxOp) :
    ∀ r ∈ (commitOps s ops).recs,
      r ∈ s.recs ∨ (s.top ≤ r.ctr ∧ s.eIdx ≤ r.eIdx ∧ r.kpIdx = s.kpCtr) :=
  foldl_applyOp_recs _ s

/-- Commit moves the counters forward and keeps the key-pair counter. -/
theorem commitOps_mono (s : DBState) (ops : List TxOp) :
    s.top ≤ (commitOps s ops).top ∧ s.eIdx ≤ (commitOps s ops).eIdx ∧
      (commitOps s ops).kpCtr = s.kpCtr :=
  foldl_applyOp_mono _ s

/-- What `findLive` returning a counter means: some record with that counter
holds the key's data. -/
theorem findLive_spec (s : DBState) (k : List Nat) (c : Nat)
    (h : findLive s k = some c) :
    ∃ r ∈ s.recs, r.ctr = c ∧ isDataOf k r = true := by
  simp only [findLive, Option.map_eq_some'] at h
  obtain ⟨r, hr, hc⟩ := h
  exact ⟨r, List.mem_of_find?_eq_some hr, hc, List.find?_some hr⟩

/-- A state with no data record for `k` reads `k` as absent. -/
theorem dbRead_eq_none (s : DBState) (k : List Nat)
    (h : ∀ r ∈ s.recs, isDataOf k r = false) : dbRead s k = none := by
  simp only [dbRead]
  rw [List.find?_eq_none.mpr (by intro r hr; simp [h r hr])]

/-- No mutation in `ops` inserts key `k`. -/
def NoInsOf (k : List Nat) (ops : List TxOp) : Prop :=
  ∀ v, TxOp.ins k v ∉ ops

/-- The key of any insert surviving deduplication was inserted by the
accumulated list or by the incoming mutation. -/
theorem dedupStep_ins_src (acc : List TxOp) (op : TxOp) (k v : List Nat)
    (hv : TxOp.ins k v ∈ dedupStep acc op) :
    (∃ v2, TxOp.ins k v2 ∈ acc) ∨ (∃ v2, op = .ins k v2) := by
  cases op with
  | ins k2 v2 =>
    simp only [dedupStep] at hv
    split at hv
    · rw [List.mem_map] at hv
      obtain ⟨op2, hop2, heq⟩ := hv
      cases op2 with
      | ins k3 v3 =>
        simp only at heq
        by_cases hk : k3 = k2
        · rw [if_pos hk] at heq
          injection heq with h1 h2
          exact Or.inr ⟨v2, by rw [h1]⟩
        · rw [if_neg hk] at heq
          injection heq with h1 h2
          exact Or.inl ⟨v3, h1 ▸ hop2⟩
      | er k3 => simp at heq
    · rw [List.mem_append] at hv
      rcases hv with hv | hv
      · exact Or.inl ⟨v, hv⟩
      · simp at hv
        exact Or.inr ⟨v2, by rw [hv.1]⟩
  | er k2 =>
    simp only [dedupStep, List.mem_append] at hv
    rcases hv with hv | hv
    · exact Or.inl ⟨v, List.mem_of_mem_filter hv⟩
    · simp at hv

/-- Deduplication introduces no insert of a key that the raw mutation list
never inserts. -/
theorem dedupOps_noIns (k : List Nat) (ops : List TxOp) (h : NoInsOf k ops) :
    NoInsOf k (dedupOps ops) := by
  suffices hgen : ∀ (ops2 acc : List TxOp), NoInsOf k acc → (∀ v, TxOp.ins k v ∉ ops2) →
      NoInsOf k (ops2.foldl dedupStep acc) by
    exact hgen ops [] (by intro v hv; simp at hv) h
  intro ops2
  induction ops2 with
  | nil => intro acc hacc _; exact hacc
  | cons op rest ih =>
    intro acc hacc hops
    refine ih (dedupStep acc op) ?_ (fun v hv => hops v (List.mem_cons_of_mem _ hv))
    intro v hv
    rcases dedupStep_ins_src acc op k v hv with ⟨v2, hv2⟩ | ⟨v2, hv2⟩
    · exact hacc v2 hv2
    · exact hops v2 (hv2 ▸ List.mem_cons_self _ _)

/-- `dbRead` is absent exactly when no record holds the key's data. -/
theorem dbRead_none_iff (s : DBState) (k : List Nat) :
    dbRead s k = none ↔ ∀ r ∈ s.recs, isDataOf k r = false := by
  constructor
  · intro h r hr
    by_contra hc
    have hd : isDataOf k r = true := by
      cases hdk : isDataOf k r
      · exact absurd hdk hc
      · rfl
    obtain ⟨r2, hfind⟩ := List.find?_isSome.mpr ⟨r, hr, hd⟩ |> Option.isSome_iff_exists.mp
    have hd2 := List.find?_some hfind
    simp only [dbRead, hfind] at h
    cases hpl : r2.plain with
    | data k2 v => rw [hpl] at h; simp at h
    | cycleMarker => simp [isDataOf, hpl] at hd2
    | erasure p => simp [isDataOf, hpl] at hd2
  · exact dbRead_eq_none s k

/-- Mutations that never insert `k` cannot make `k` readable. -/
theorem applyOp_no_data (s : DBState) (op : TxOp) (k : List Nat)
    (hs : ∀ r ∈ s.recs, isDataOf k r = false) (hop : ∀ v, op ≠ .ins k v) :
    ∀ r ∈ (applyOp s op).recs, isDataOf k r = false := by
  intro r hr
  cases op with
  | ins k2 v =>
    have hk2 : k2 ≠ k := by
      intro he; exact hop v (by rw [he])
    simp only [applyOp] at hr
    cases hfl : findLive s k2 with
    | none =>
      rw [hfl] at hr
      simp [appendRec] at hr
      rcases hr with hr | hr
      · exact hs r hr
      · subst hr; simp [isDataOf, hk2]
    | some c =>
      rw [hfl] at hr
      simp [appendRec, deleteSlot] at hr
      rcases hr with hr | hr | hr
      · exact hs r hr.1
      · subst hr; simp [isDataOf]
      · subst hr; simp [isDataOf, hk2]
  | er k2 =>
    simp only [applyOp] at hr
    cases hfl : findLive s k2 with
    | none => rw [hfl] at hr; exact hs r hr
    | some c =>
      rw [hfl] at hr
      simp [appendRec, deleteSlot] at hr
      rcases hr with hr | hr
      · exact hs r hr.1
      · subst hr; simp [isDataOf]

/-- Folded version of `applyOp_no_data`. -/
theorem foldl_no_data (ops : List TxOp) (s : DBState) (k : List Nat)
    (hs : ∀ r ∈ s.recs, isDataOf k r = false) (hops : NoInsOf k ops) :
    ∀ r ∈ (ops.foldl applyOp s).recs, isDataOf k r = false := by
  induction ops generalizing s with
  | nil => exact hs
  | cons op rest ih =>
    refine ih (applyOp s op) ?_ (fun v hv => hops v (List.mem_cons_of_mem _ hv))
    exact applyOp_no_data s op k hs
      (fun v he => hops v (he ▸ List.mem_cons_self _ _))

/-- An erased key stays absent through any later commits that do not insert
it again. -/
theorem commit_no_data (s : DBState) (ops : List TxOp) (k : List Nat)
    (hs : dbRead s k = none) (hops : NoInsOf k ops) :
    dbRead (commitOps s ops) k = none := by
  rw [dbRead_none_iff]
  exact foldl_no_data _ s k ((dbRead_none_iff s k).mp hs) (dedupOps_noIns k ops hops)

/-- Committing a lone erase of a live key frees its slot and appends the
sentinel. -/
theorem commit_erase_eq (s : DBState) (k : List Nat) (c : Nat)
    (h : findLive s k = some c) :
    commitOps s [.er k] = appendRec (deleteSlot s c) (.erasure c) := by
  simp [commitOps, dedupOps, dedupStep, applyOp, h]

/-- Correctness of the tail-recursive modular exponentiation loop. -/
theorem powModF_correct (fuel : Nat) : ∀ (b e acc m : Nat), 0 < m → acc < m →
    e < 2 ^ fuel → powModF fuel b e acc m = acc * b ^ e % m := by
  induction fuel with
  | zero =>
    intro b e acc m hm hacc hfuel
    interval_cases e
    simp [powModF, Nat.mod_eq_of_lt hacc]
  | succ fuel ih =>
    intro b e acc m hm hacc hfuel
    by_cases he : e = 0
    · subst he; simp [powModF, Nat.mod_eq_of_lt hacc]
    · have he2 : e / 2 < 2 ^ fuel := by
        rw [pow_succ, mul_comm] at hfuel
        exact Nat.div_lt_of_lt_mul hfuel
      simp only [powModF, if_neg he, seqN_eq]
      rw [ih (b * b % m) (e / 2) (if e % 2 = 1 then acc * b % m else acc) m hm
        (by split <;> [exact Nat.mod_lt _ hm; exact hacc]) he2]
      have hsplit : (if e % 2 = 1 then acc * b % m else acc) = acc * b ^ (e % 2) % m := by
        rcases Nat.mod_two_eq_zero_or_one e with h | h <;>
          simp [h, Nat.mod_eq_of_lt hacc]
      rw [hsplit]
      calc (acc * b ^ (e % 2) % m) * (b * b % m) ^ (e / 2) % m
          = (acc * b ^ (e % 2)) * ((b * b) ^ (e / 2)) % m := by
            conv_rhs => rw [Nat.mul_mod]
            rw [Nat.pow_mod]
            conv_lhs => rw [Nat.mul_mod, Nat.mod_mod_of_dvd _ dvd_rfl]
        _ = acc * b ^ e % m := by
            rw [mul_assoc]
            have h2 : b ^ (e % 2) * (b * b) ^ (e / 2) = b ^ e := by
              rw [show b * b = b ^ 2 from (sq b).symm, ← pow_mul, ← pow_add]
              congr 1
              omega
            rw [h2]


/-- `powMod` computes modular exponentiation. -/
theorem powMod_correct (b e m : Nat) (hm : 0 < m) : powMod b e m = b ^ e % m := by
  unfold powMod
  rw [powModF_correct (e + 1) (b % m) e (1 % m) m hm (Nat.mod_lt _ hm)
    (lt_of_lt_of_le (Nat.lt_two_pow _) (Nat.pow_le_pow_right (by norm_num) (Nat.le_succ _)))]
  rw [Nat.mul_mod, Nat.mod_mod_of_dvd, ← Nat.pow_mod, ← Nat.mul_mod, one_mul]
  rfl

/-- The model group law: the public key of a sum of scalars. -/
theorem mPubOf_add (a b : Nat) : mPubOf (a + b) = mPubOf a * mPubOf b % mP := by
  unfold mPubOf
  rw [powMod_correct _ _ _ (by norm_num [mP]), powMod_correct _ _ _ (by norm_num [mP]),
    powMod_correct _ _ _ (by norm_num [mP]), pow_add, Nat.mul_mod]

/-- Public derivation commutes with private derivation: deriving the child
privately and taking its public key equals deriving publicly from the
parent public key. -/
theorem mPubOf_childPriv (k idx : Nat) :
    mPubOf (mChildPriv k idx) = mChildPub (mPubOf k) idx := by
  unfold mChildPriv mChildPub
  rw [mPubOf_add]
  rfl

/-- The watch-only fork, publicly extended, carries exactly the full
wallet's privately extended assets with private keys stripped. -/
theorem fork_extend_assets (k n m : Nat) :
    (extendPublicChain (forkWatchingOnly (extendPrivateChain (mkFullWallet k) n)) m).assets
      = (extendPrivateChain (extendPrivateChain (mkFullWallet k) n) m).assets.map
          (fun a => ⟨a.pub, none⟩) := by
  simp only [mkFullWallet, extendPrivateChain, forkWatchingOnly, extendPublicChain]
  simp [List.map_map, Function.comp]
  intro a _
  rw [mPubOf_childPriv]

/-- A gap never closes: later commits only allocate fresh counters. -/
theorem isGap_persist (s : DBState) (c : Nat) (h : isGap s c) (ops : List TxOp) :
    isGap (commitOps s ops) c := by
  obtain ⟨hc, hnone⟩ := h
  constructor
  · exact lt_of_lt_of_le hc (commitOps_mono s ops).1
  · intro r hr
    rcases commitOps_recs s ops r hr with h2 | h2
    · exact hnone r h2
    · omega

/-- `findLive` is absent when no record holds the key's data. -/
theorem findLive_eq_none (s : DBState) (k : List Nat)
    (h : ∀ r ∈ s.recs, isDataOf k r = false) : findLive s k = none := by
  simp only [findLive, Option.map_eq_none']
  exact List.find?_eq_none.mpr (by intro r hr; simp [h r hr])

/-- Reading a key straight after appending its data record. -/
theorem dbRead_append_data (s : DBState) (k v : List Nat)
    (h : ∀ r ∈ s.recs, isDataOf k r = false) :
    dbRead (appendRec s (.data k v)) k = some v := by
  simp only [dbRead, appendRec]
  rw [List.find?_append, List.find?_eq_none.mpr (by intro r hr; simp [h r hr])]
  simp [isDataOf]

/-- After erasing the unique data record of `k`, no record holds `k`. -/
theorem erase_no_data (s : DBState) (k : List Nat) (c : Nat)
    (hfl : findLive s k = some c)
    (huniq : ∀ r1 ∈ s.recs, ∀ r2 ∈ s.recs,
      isDataOf k r1 = true → isDataOf k r2 = true → r1 = r2) :
    ∀ r ∈ (appendRec (deleteSlot s c) (.erasure c)).recs, isDataOf k r = false := by
  obtain ⟨r0, hr0, hc0, hd0⟩ := findLive_spec s k c hfl
  intro r hr
  simp only [appendRec, deleteSlot, List.mem_append, List.mem_filter,
    List.mem_singleton] at hr
  rcases hr with ⟨hmem, hne⟩ | hr
  · cases hd : isDataOf k r with
    | false => rfl
    | true =>
      exfalso
      have heq := huniq r hmem r0 hr0 hd hd0
      rw [heq] at hne
      simp [hc0] at hne
  · rw [hr]
    simp [isDataOf]

/-- Committing erase-then-reinsert of `k` inside one transaction. -/
theorem commit_erase_reinsert (s : DBState) (k v2 : List Nat) (c : Nat)
    (hfl : findLive s k = some c)
    (huniq : ∀ r1 ∈ s.recs, ∀ r2 ∈ s.recs,
      isDataOf k r1 = true → isDataOf k r2 = true → r1 = r2) :
    commitOps s [.er k, .ins k v2]
      = appendRec (appendRec (deleteSlot s c) (.erasure c)) (.data k v2) := by
  have hdedup : dedupOps [TxOp.er k, TxOp.ins k v2] = [TxOp.er k, TxOp.ins k v2] := by
    simp [dedupOps, dedupStep]
  rw [commitOps, hdedup]
  simp only [List.foldl_cons, List.foldl_nil]
  rw [show applyOp s (.er k) = appendRec (deleteSlot s c) (.erasure c) by
    simp [applyOp, hfl]]
  rw [show applyOp (appendRec (deleteSlot s c) (.erasure c)) (.ins k v2)
      = appendRec (appendRec (deleteSlot s c) (.erasure c)) (.data k v2) by
    simp [applyOp, findLive_eq_none _ _ (erase_no_data s k c hfl huniq)]]

/-- C4: erasing a logical key inside a committed transaction appends an
erasure sentinel whose plaintext pair is `("", "erased" ‖ varint(4) ‖
be32(prevCounter))`, turns the erased record's counter into an observable
gap that no later commit ever reuses, makes every subsequent read of the
key absent (in later transactions and after the reopen scan, which is the
same reconstruction `dbRead`) as long as the key is not re-inserted, while
a key erased and re-inserted inside the same transaction reads back its
newest value, both inside the transaction and after commit. -/
theorem c4_erase_semantics (s : DBState) (k v2 : List Nat) (c : Nat)
    (hwf : WFdb s) (hfl : findLive s k = some c)
    (huniq : ∀ r1 ∈ s.recs, ∀ r2 ∈ s.recs,
      isDataOf k r1 = true → isDataOf k r2 = true → r1 = r2) :
    ((⟨s.top, s.kpCtr, s.eIdx, .erasure c⟩ : DBRec) ∈ (commitOps s [.er k]).recs) ∧
    recPair (.erasure c) = ([], erasedTag ++ put_var_int 4 ++ be32 c) ∧
    isGap (commitOps s [.er k]) c ∧
    (∀ ops2, isGap (commitOps (commitOps s [.er k]) ops2) c) ∧
    dbRead (commitOps s [.er k]) k = none ∧
    (∀ ops2, NoInsOf k ops2 → dbRead (commitOps (commitOps s [.er k]) ops2) k = none) ∧
    txGetData s [.er k, .ins k v2] k = some v2 ∧
    dbRead (commitOps s [.er k, .ins k v2]) k = some v2 := by
  have hceq := commit_erase_eq s k c hfl
  have hcra : c < s.top := by
    obtain ⟨r0, hr0, hc0, _⟩ := findLive_spec s k c hfl
    exact hc0 ▸ (hwf.1 r0 hr0).1
  have hnodata := erase_no_data s k c hfl huniq
  have hgap : isGap (commitOps s [.er k]) c := by
    rw [hceq]
    constructor
    · simp [appendRec, deleteSlot]
      omega
    · intro r hr
      simp only [appendRec, deleteSlot, List.mem_append, List.mem_filter,
        List.mem_singleton] at hr
      rcases hr with ⟨_, hne⟩ | hr
      · simpa using hne
      · rw [hr]; simp; omega
  refine ⟨?_, ?_, hgap, ?_, ?_, ?_, ?_, ?_⟩
  · rw [hceq]
    simp [appendRec, deleteSlot]
  · simp [recPair, getErasurePacket]
  · intro ops2
    exact isGap_persist _ c hgap ops2
  · rw [hceq]
    exact dbRead_eq_none _ k hnodata
  · intro ops2 hops2
    exact commit_no_data _ ops2 k (hceq ▸ dbRead_eq_none _ k hnodata) hops2
  · simp [txGetData, opsLookup]
  · rw [commit_erase_reinsert s k v2 c hfl huniq]
    exact dbRead_append_data _ k v2 hnodata

/-- C6: for every index — including indices derived after the fork by
`extendPublicChain` on the fork and `extendPrivateChain` on the full
wallet — the watch-only fork produces the same address as the full wallet;
every asset of the fork carries no private key; and a private-key request
on the fork fails with `WatchOnly`. -/
theorem c6_watch_only_equivalence (k n m i : Nat) :
    (((extendPublicChain (forkWatchingOnly (extendPrivateChain (mkFullWallet k) n)) m).assets.get?
        i).map mAddress
      = ((extendPrivateChain (extendPrivateChain (mkFullWallet k) n) m).assets.get? i).map
          mAddress) ∧
    (∀ a ∈ (extendPublicChain (forkWatchingOnly (extendPrivateChain (mkFullWallet k) n)) m).assets,
      a.priv = none) ∧
    getAssetPrivKey (extendPublicChain (forkWatchingOnly (extendPrivateChain (mkFullWallet k) n)) m)
      i = .error .watchOnly := by
  refine ⟨?_, ?_, ?_⟩
  · rw [fork_extend_assets, List.get?_map]
    cases (extendPrivateChain (extendPrivateChain (mkFullWallet k) n) m).assets.get? i with
    | none => rfl
    | some a => rfl
  · intro a ha
    rw [fork_extend_assets] at ha
    obtain ⟨a2, _, ha2⟩ := List.mem_map.mp ha
    rw [← ha2]
  · simp [getAssetPrivKey, extendPublicChain, forkWatchingOnly]

/-- C7: creating a read transaction while a write transaction holds the
sub-DB fails with `TxConflict` carrying the message "failed to create db
tx", and symmetrically for a write during a live read; in both cases the
failed acquisition leaves the manager's live transaction — its snapshot,
pending mutations and view — exactly as it was. -/
theorem c7_tx_conflict (t : TxState) (db : DBState) :
    (t.mode = .write →
      beginTxM (some t) db .read = (.error (.txConflict "failed to create db tx"), some t)) ∧
    (t.mode = .read →
      beginTxM (some t) db .write = (.error (.txConflict "failed to create db tx"), some t)) := by
  constructor <;> intro hm <;> simp [beginTxM, beginTx, hm]

/-- C7 witness: both conflict directions at a concrete live transaction. -/
theorem c7_tx_conflict_witness :
    beginTxM (some ⟨freshDB, .write, 1, []⟩) freshDB .read
      = (.error (.txConflict "failed to create db tx"), some ⟨freshDB, .write, 1, []⟩) :=
  (c7_tx_conflict ⟨freshDB, .write, 1, []⟩ freshDB).1 rfl

/-- C8: a same-mode transaction nested inside a live transaction shares the
parent's snapshot and pending mutations (hence its whole logical view); an
insert performed in the nested scope is visible in the parent after the
inner scope exits, and exiting the inner scope neither commits nor aborts —
only the outermost scope of a writer commits. -/
theorem c8_nested_tx (t : TxState) (k v : List Nat) (h : 0 < t.depth) :
    beginTx (some t) t.db t.mode = .ok ⟨t.db, t.mode, t.depth + 1, t.ops⟩ ∧
    (∀ k2, txView ⟨t.db, t.mode, t.depth + 1, t.ops⟩ k2 = txView t k2) ∧
    endTxScope (txInsert ⟨t.db, t.mode, t.depth + 1, t.ops⟩ k v)
      = .inl ⟨t.db, t.mode, t.depth, t.ops ++ [.ins k v]⟩ ∧
    txView ⟨t.db, t.mode, t.depth, t.ops ++ [.ins k v]⟩ k = some v ∧
    (∀ t2 : TxState, t2.depth = 1 → t2.mode = .write →
      endTxScope t2 = .inr (commitOps t2.db t2.ops)) := by
  refine ⟨?_, ?_, ?_, ?_, ?_⟩
  · simp [beginTx]
  · intro k2; rfl
  · simp only [txInsert, endTxScope]
    rw [if_neg (by omega)]
    simp
  · simp only [txView, txGetData, opsLookup, List.foldl_append, List.foldl_cons,
      List.foldl_nil]
    simp
  · intro t2 hd hm
    simp [endTxScope, hd, hm]

/-- C8 witness: the nested-transaction contract at a concrete writer. -/
theorem c8_nested_tx_witness :
    beginTx (some (⟨freshDB, .write, 1, []⟩ : TxState)) freshDB .write
      = .ok ⟨freshDB, .write, 2, []⟩ :=
  (c8_nested_tx ⟨freshDB, .write, 1, []⟩ [1] [2] (by decide)).1

/-- C4 witness: the erase contract applied to a concrete sub-DB holding one
key, checking the read-after-erase conclusion. -/
theorem c4_erase_semantics_witness :
    WFdb (commitOps freshDB [.ins [1] [2]]) ∧
    dbRead (commitOps (commitOps freshDB [.ins [1] [2]]) [.er [1]]) [1] = none :=
  ⟨by unfold WFdb; exact ⟨by decide, by decide⟩,
   (c4_erase_semantics (commitOps freshDB [.ins [1] [2]]) [1] [3] 1
     (by unfold WFdb; exact ⟨by decide, by decide⟩) (by decide) (by decide)).2.2.2.2.1⟩

/-- C9: `changePassphrase` under a held lock fails with `AlreadyLocked` and
changes nothing; outside any lock it rewrites only the master-key object —
a single slot under the new passphrase's stretched key with a fresh IV and
a fresh ciphertext — while every per-asset encrypted private key (IV and
ciphertext) stays byte-for-byte unchanged; afterwards the old passphrase no
longer decrypts, and the new passphrase yields exactly the same decrypted
private keys as before. -/
theorem c9_change_passphrase (c : DecryptedDataContainer) (curPass newPass master : List Nat)
    (hfresh : c.freshIV c.eIdx ∉ c.usedIVs)
    (hct : ∀ s ∈ c.masterSlots,
      encryptCBC master (c.kdf newPass) (c.freshIV c.eIdx) ≠ s.cipherText)
    (hkdfne : hash256 (c.kdf curPass) ≠ hash256 (c.kdf newPass))
    (hrt : decryptCBC (encryptCBC master (c.kdf newPass) (c.freshIV c.eIdx))
      (c.kdf newPass) (c.freshIV c.eIdx) = some master) :
    (c.locked = true → changePassphrase c curPass newPass = .error .alreadyLocked) ∧
    (c.locked = false → unlockSlot c.masterSlots (c.kdf curPass) = some master →
      changePassphrase c curPass newPass
        = .ok ⟨c.kdf, [mkSlot (c.kdf newPass) (c.freshIV c.eIdx) master], c.assetKeys,
               c.locked, c.usedIVs ++ [c.freshIV c.eIdx], c.freshIV, c.eIdx + 1⟩ ∧
      (c.freshIV c.eIdx ∉ c.usedIVs) ∧
      (∀ s ∈ c.masterSlots, (mkSlot (c.kdf newPass) (c.freshIV c.eIdx) master).cipherText
        ≠ s.cipherText) ∧
      unlockSlot [mkSlot (c.kdf newPass) (c.freshIV c.eIdx) master] (c.kdf curPass) = none ∧
      unlockSlot [mkSlot (c.kdf newPass) (c.freshIV c.eIdx) master] (c.kdf newPass)
        = some master ∧
      (∀ i : Nat,
        decryptAssetKey ⟨c.kdf, [mkSlot (c.kdf newPass) (c.freshIV c.eIdx) master], c.assetKeys,
            c.locked, c.usedIVs ++ [c.freshIV c.eIdx], c.freshIV, c.eIdx + 1⟩ newPass i
          = decryptAssetKey c curPass i)) := by
  constructor
  · intro hl
    simp [changePassphrase, hl]
  · intro hl hu
    have hnew : unlockSlot [mkSlot (c.kdf newPass) (c.freshIV c.eIdx) master]
        (c.kdf newPass) = some master := by
      simp [unlockSlot, mkSlot, List.find?, hrt]
    refine ⟨?_, hfresh, ?_, ?_, hnew, ?_⟩
    · simp [changePassphrase, hl, hu]
    · intro s hs
      exact hct s hs
    · have hne : hash256 (c.kdf newPass) ≠ hash256 (c.kdf curPass) := fun he => hkdfne he.symm
      simp [unlockSlot, mkSlot, List.find?, hne]
    · intro i
      simp [decryptAssetKey, hnew, hu]

set_option maxRecDepth 10000 in
set_option exponentiation.threshold 100000 in
/-- Witness for C9: on the concrete container `cW9`, changing the passphrase
from `[1]` to `[2]` rewrites the master-key object as claimed, the old
passphrase no longer unlocks it and the new one recovers the same master key. -/
theorem c9_change_passphrase_witness :
    cW9.freshIV cW9.eIdx ∉ cW9.usedIVs ∧
    changePassphrase cW9 [1] [2]
      = .ok ⟨cW9.kdf, [mkSlot (cW9.kdf [2]) (cW9.freshIV cW9.eIdx) mW9], cW9.assetKeys,
             cW9.locked, cW9.usedIVs ++ [cW9.freshIV cW9.eIdx], cW9.freshIV, cW9.eIdx + 1⟩ ∧
    unlockSlot [mkSlot (cW9.kdf [2]) (cW9.freshIV cW9.eIdx) mW9] (cW9.kdf [1]) = none ∧
    unlockSlot [mkSlot (cW9.kdf [2]) (cW9.freshIV cW9.eIdx) mW9] (cW9.kdf [2]) = some mW9 := by
  have h := (c9_change_passphrase cW9 [1] [2] mW9
    (by decide) (by decide) (by decide) (by decide)).2 (by decide) (by decide)
  exact ⟨by decide, h.1, h.2.2.2.1, h.2.2.2.2.1⟩

/-- C1 (corrected): the symmetric key of the AES-CBC layer is NOT the single
SHA-256 of the ECDH shared point — both the writer and the reader
(`decryptPair`, WalletTests.cpp:615 `BtcUtils::hash256`) derive it as the
DOUBLE SHA-256 `SHA-256(SHA-256(e·pub_i))`.  With that key every sealed
record decrypts back to its stored `(dataKey, dataVal)`: the writer computes
`shared = e·pub_i`, the reader recomputes the same point as `encPriv_i·E`,
and decryption, parsing and HMAC verification all succeed. -/
theorem c1_ies_record_key (encPriv macKey ephPriv iv k v slotPub ephPub shared : List Nat)
    (ctr : Nat)
    (hk : k.length < 18446744073709551616)
    (hv : v.length < 18446744073709551616)
    (hsp : computePublicKey encPriv = some slotPub)
    (hep : computePublicKey ephPriv = some ephPub)
    (hsh : pubKeyScalarMultiply slotPub ephPriv = some shared)
    (hrd : pubKeyScalarMultiply ephPub encPriv = some shared)
    (hcbc : decryptCBC (encryptCBC (sealPlain ctr k v macKey) (hash256 shared) iv)
              (hash256 shared) iv = some (sealPlain ctr k v macKey)) :
    sealRecord encPriv macKey ephPriv iv ctr k v
      = some ⟨ephPub, iv,
              encryptCBC (sealPlain ctr k v macKey) (sha256 (sha256 shared)) iv, be32 ctr⟩ ∧
    decryptPair ⟨ephPub, iv,
        encryptCBC (sealPlain ctr k v macKey) (sha256 (sha256 shared)) iv, be32 ctr⟩
      encPriv macKey = .ok (k, v) := by
  constructor
  · simp [sealRecord, hsp, hep, hsh, hash256]
  · exact decryptPair_seal encPriv macKey ephPub shared iv k v ctr hk hv hrd hcbc

set_option maxRecDepth 10000 in
set_option exponentiation.threshold 100000 in
/-- Witness for C1 at concrete scalars 5 (slot) and 7 (ephemeral). -/
theorem c1_ies_record_key_witness :
    computePublicKey ePrivW = some slotPubW ∧
    (sealRecord ePrivW macKeyW ephPrivW ivW 0 [107] [118]
      = some ⟨ephPubW, ivW,
              encryptCBC (sealPlain 0 [107] [118] macKeyW) (sha256 (sha256 sharedW)) ivW,
              be32 0⟩ ∧
     decryptPair ⟨ephPubW, ivW,
         encryptCBC (sealPlain 0 [107] [118] macKeyW) (sha256 (sha256 sharedW)) ivW,
         be32 0⟩ ePrivW macKeyW = .ok ([107], [118])) :=
  ⟨by decide,
   c1_ies_record_key ePrivW macKeyW ephPrivW ivW [107] [118] slotPubW ephPubW sharedW 0
     (by decide) (by decide) (by decide) (by decide) (by decide) (by decide) (by decide)⟩

set_option maxRecDepth 10000 in
set_option exponentiation.threshold 100000 in
/-- Counterexample to C1 as the specification words it: the concrete record
sealed for scalars 5 and 7 decrypts fine under the source's double-SHA-256
key derivation, but the reader variant `decryptPairSingleSha` that derives
the key as the SINGLE SHA-256 of the shared point — which is what the
specification states — fails on the very same committed record. -/
theorem c1_single_sha_mismatch :
    (sealRecord ePrivW macKeyW ephPrivW ivW 0 [107] [118]).map
        (fun pkt => (decryptPair pkt ePrivW macKeyW,
                     decryptPairSingleSha pkt ePrivW macKeyW))
      = some (.ok ([107], [118]), .error .badCipher) := by decide

/-- Appending records leaves the key-pair counter unchanged and stamps every
appended record with it. -/
theorem foldl_appendRec_kpMap (ps : List RecPlain) (s : DBState) :
    ((ps.foldl appendRec s).recs.map (fun r => r.kpIdx))
      = s.recs.map (fun r => r.kpIdx) ++ ps.map (fun _ => s.kpCtr) ∧
    (ps.foldl appendRec s).kpCtr = s.kpCtr := by
  induction ps generalizing s with
  | nil => simp
  | cons p ps ih =>
    simp only [List.foldl_cons]
    obtain ⟨h1, h2⟩ := ih (appendRec s p)
    refine ⟨?_, h2⟩
    rw [h1]
    simp [appendRec]

/-- Sealing a record whose key-pair the stream yields seals to that
key-pair. -/
theorem sealDBRec_eq (sr : List Nat) (ent : Nat → EntropyDraw) (r : DBRec)
    (kp : List Nat × List Nat) (h : generateKeyPair sr r.kpIdx = some kp) :
    sealDBRec sr ent r
      = sealRecord kp.1 kp.2 (ent r.eIdx).eph (ent r.eIdx).iv r.ctr
          (recPair r.plain).1 (recPair r.plain).2 := by
  unfold sealDBRec
  rw [h]

/-- The writer model in explicit form, given the two public keys and the
shared point. -/
theorem sealRecord_eq (encPriv macKey ephPriv iv sp ep sh k v : List Nat) (ctr : Nat)
    (h1 : computePublicKey encPriv = some sp)
    (h2 : computePublicKey ephPriv = some ep)
    (h3 : pubKeyScalarMultiply sp ephPriv = some sh) :
    sealRecord encPriv macKey ephPriv iv ctr k v
      = some ⟨ep, iv, encryptCBC (sealPlain ctr k v macKey) (hash256 sh) iv, be32 ctr⟩ := by
  unfold sealRecord
  rw [h1, h2]
  simp only [h3]

/-- C2 (corrected): the salted root is `HMAC-SHA256(key = controlSalt,
msg = controlRoot)` as stated, but key-pair `i` is the 32‖32 split of
HMAC-SHA512 keyed by the NATIVE in-memory bytes of the `uint32_t` counter
(little-endian on the test platform, `(uint8_t*)&ctr` at
WalletTests.cpp:569), not by `be32(i)`.  Every sub-DB starts with a cycle
marker — plaintext `("", "cycle")` — at record counter 0 under key-pair 0;
records appended until the next cycle marker carry key-pair 1 (and record 1
fails to decrypt under key-pair 0), and a further cycle marker moves the
key-pair counter to 2. -/
theorem c2_key_stream (salt root k v sp0 e0 sh0 sp1 e1 sh1 shx : List Nat)
    (ent : Nat → EntropyDraw) (kp0 kp1 : List Nat × List Nat) (i : Nat)
    (hval : checkPrivKeyIsValid
      ((getHMAC512 (u32NativeBytes i) (getHMAC256 salt root)).take 32) = true)
    (hkp0 : generateKeyPair (getHMAC256 salt root) 0 = some kp0)
    (hkp1 : generateKeyPair (getHMAC256 salt root) 1 = some kp1)
    (hk : k.length < 18446744073709551616)
    (hv : v.length < 18446744073709551616)
    (hsp0 : computePublicKey kp0.1 = some sp0)
    (he0 : computePublicKey (ent 0).eph = some e0)
    (hsh0 : pubKeyScalarMultiply sp0 (ent 0).eph = some sh0)
    (hrd0 : pubKeyScalarMultiply e0 kp0.1 = some sh0)
    (hcbc0 : decryptCBC (encryptCBC (sealPlain 0 [] cycleTag kp0.2) (hash256 sh0) (ent 0).iv)
      (hash256 sh0) (ent 0).iv = some (sealPlain 0 [] cycleTag kp0.2))
    (hsp1 : computePublicKey kp1.1 = some sp1)
    (he1 : computePublicKey (ent 1).eph = some e1)
    (hsh1 : pubKeyScalarMultiply sp1 (ent 1).eph = some sh1)
    (hrd1 : pubKeyScalarMultiply e1 kp1.1 = some sh1)
    (hcbc1 : decryptCBC (encryptCBC (sealPlain 1 k v kp1.2) (hash256 sh1) (ent 1).iv)
      (hash256 sh1) (ent 1).iv = some (sealPlain 1 k v kp1.2))
    (hrdx : pubKeyScalarMultiply e1 kp0.1 = some shx)
    (hwrong : decryptCBC (encryptCBC (sealPlain 1 k v kp1.2) (hash256 sh1) (ent 1).iv)
      (hash256 shx) (ent 1).iv = none) :
    generateKeyPair (getHMAC256 salt root) i
      = some ((getHMAC512 (u32NativeBytes i) (getHMAC256 salt root)).take 32,
              ((getHMAC512 (u32NativeBytes i) (getHMAC256 salt root)).drop 32).take 32) ∧
    freshDB.recs = [⟨0, 0, 0, .cycleMarker⟩] ∧
    recPair .cycleMarker = ([], cycleTag) ∧
    (∀ ps : List RecPlain,
      ((ps.foldl appendRec freshDB).recs.map (fun r => r.kpIdx)) = 0 :: ps.map (fun _ => 1) ∧
      (cycleDB (ps.foldl appendRec freshDB)).kpCtr = 2 ∧
      ∀ p : RecPlain,
        ((appendRec (cycleDB (ps.foldl appendRec freshDB)) p).recs.map (fun r => r.kpIdx))
          = (0 :: ps.map (fun _ => 1)) ++ [1, 2]) ∧
    sealDBRec (getHMAC256 salt root) ent ⟨0, 0, 0, .cycleMarker⟩
      = some ⟨e0, (ent 0).iv,
              encryptCBC (sealPlain 0 [] cycleTag kp0.2) (hash256 sh0) (ent 0).iv, be32 0⟩ ∧
    decryptPair ⟨e0, (ent 0).iv,
        encryptCBC (sealPlain 0 [] cycleTag kp0.2) (hash256 sh0) (ent 0).iv, be32 0⟩
      kp0.1 kp0.2 = .ok ([], cycleTag) ∧
    sealDBRec (getHMAC256 salt root) ent ⟨1, 1, 1, .data k v⟩
      = some ⟨e1, (ent 1).iv,
              encryptCBC (sealPlain 1 k v kp1.2) (hash256 sh1) (ent 1).iv, be32 1⟩ ∧
    decryptPair ⟨e1, (ent 1).iv,
        encryptCBC (sealPlain 1 k v kp1.2) (hash256 sh1) (ent 1).iv, be32 1⟩
      kp1.1 kp1.2 = .ok (k, v) ∧
    decryptPair ⟨e1, (ent 1).iv,
        encryptCBC (sealPlain 1 k v kp1.2) (hash256 sh1) (ent 1).iv, be32 1⟩
      kp0.1 kp0.2 = .error .badCipher := by
  refine ⟨?_, rfl, rfl, ?_, ?_, ?_, ?_, ?_, ?_⟩
  · simp [generateKeyPair, hval]
  · intro ps
    obtain ⟨h1, h2⟩ := foldl_appendRec_kpMap ps freshDB
    have hf1 : freshDB.recs.map (fun r => r.kpIdx) = [0] := rfl
    have hf2 : freshDB.kpCtr = 1 := rfl
    rw [hf1, hf2] at h1
    refine ⟨by simpa using h1, by simp [cycleDB, appendRec, h2, hf2], ?_⟩
    intro p
    simp [appendRec, cycleDB, h1, h2, hf2]
  · rw [sealDBRec_eq (getHMAC256 salt root) ent ⟨0, 0, 0, .cycleMarker⟩ kp0 hkp0]
    exact sealRecord_eq kp0.1 kp0.2 (ent 0).eph (ent 0).iv sp0 e0 sh0 [] cycleTag 0
      hsp0 he0 hsh0
  · exact decryptPair_seal kp0.1 kp0.2 e0 sh0 (ent 0).iv [] cycleTag 0
      (by decide) (by decide) hrd0 hcbc0
  · rw [sealDBRec_eq (getHMAC256 salt root) ent ⟨1, 1, 1, .data k v⟩ kp1 hkp1]
    exact sealRecord_eq kp1.1 kp1.2 (ent 1).eph (ent 1).iv sp1 e1 sh1 k v 1
      hsp1 he1 hsh1
  · exact decryptPair_seal kp1.1 kp1.2 e1 sh1 (ent 1).iv k v 1 hk hv hrd1 hcbc1
  · unfold decryptPair
    simp only [hrdx, hwrong]

set_option maxRecDepth 10000 in
set_option maxHeartbeats 10000000 in
set_option exponentiation.threshold 100000 in
/-- Witness for C2 at the concrete salt/root `saltC2`/`rootC2`, entropy
stream `entC2` and record pair `([107], [118])`. -/
theorem c2_key_stream_witness :
    checkPrivKeyIsValid
      ((getHMAC512 (u32NativeBytes 0) (getHMAC256 saltC2 rootC2)).take 32) = true ∧
    decryptPair ⟨e1C2, (entC2 1).iv,
        encryptCBC (sealPlain 1 [107] [118] kp1C2.2) (hash256 sh1C2) (entC2 1).iv, be32 1⟩
      kp1C2.1 kp1C2.2 = .ok ([107], [118]) ∧
    decryptPair ⟨e1C2, (entC2 1).iv,
        encryptCBC (sealPlain 1 [107] [118] kp1C2.2) (hash256 sh1C2) (entC2 1).iv, be32 1⟩
      kp0C2.1 kp0C2.2 = .error .badCipher := by
  have h := c2_key_stream saltC2 rootC2 [107] [118] sp0C2 e0C2 sh0C2 sp1C2 e1C2 sh1C2 shxC2
    entC2 kp0C2 kp1C2 0 (by decide) (by decide) (by decide) (by decide) (by decide)
    (by decide) (by decide) (by decide) (by decide) (by decide) (by decide) (by decide)
    (by decide) (by decide) (by decide) (by decide) (by decide)
  exact ⟨by decide, h.2.2.2.2.2.2.2.1, h.2.2.2.2.2.2.2.2⟩

set_option maxRecDepth 10000 in
set_option exponentiation.threshold 100000 in
/-- Counterexample to C2 as the specification words it: at counter 1 the
native counter bytes differ from `be32(1)`, and the key-pair the source
derives differs from the one derived with `be32(1)` as the HMAC-SHA512
key. -/
theorem c2_be32_mismatch :
    u32NativeBytes 1 ≠ be32 1 ∧
    generateKeyPair srC2 1 ≠ generateKeyPairBe32 srC2 1 := by
  constructor
  · decide
  · decide

/-- A sealed record read back against a DIFFERENT slot counter parses, but
the recomputed slot-bound HMAC disagrees with the stored one and the
reader rejects it as tampered. -/
theorem decryptPair_wrongSlot (encPriv macKey ephPub shared iv k v : List Nat)
    (ctr ctr2 : Nat)
    (hk : k.length < 18446744073709551616)
    (hv : v.length < 18446744073709551616)
    (hrd : pubKeyScalarMultiply ephPub encPriv = some shared)
    (hcbc : decryptCBC (encryptCBC (sealPlain ctr k v macKey) (hash256 shared) iv)
              (hash256 shared) iv = some (sealPlain ctr k v macKey))
    (hne : computeHmac (be32 ctr2) k v macKey ≠ computeHmac (be32 ctr) k v macKey) :
    decryptPair ⟨ephPub, iv, encryptCBC (sealPlain ctr k v macKey) (hash256 shared) iv,
        be32 ctr2⟩ encPriv macKey = .error .hmacMismatch := by
  unfold decryptPair
  simp only [hrd, hcbc]
  have h1 : sealPlain ctr k v macKey =
      computeHmac (be32 ctr) k v macKey ++
        (put_var_int k.length ++ (k ++ (put_var_int v.length ++ (v ++ [])))) := by
    simp [sealPlain]
  rw [h1, show (32 : Nat) = (computeHmac (be32 ctr) k v macKey).length from
    (computeHmac_length _ _ _ _).symm, readBytes_append]
  simp only [get_var_int_put k.length _ hk, readBytes_append,
    get_var_int_put v.length _ hv]
  simp [hne]

/-- C3: the 32-byte HMAC prefixed to every record plaintext is
`HMAC-SHA256(macKey, varint(|k|) ‖ k ‖ varint(|v|) ‖ v ‖ be32(ctr))`, the
slot counter entering last; two records sealed at counters `c1` and `c2`
decrypt in place, and after swapping the two slots' packet bodies while
keeping their counters, both reads fail HMAC verification as tampered. -/
theorem c3_hmac_binding (encPriv macKey eph1 eph2 sh1 sh2 iv1 iv2 k1 v1 k2 v2 : List Nat)
    (c1 c2 : Nat)
    (hk1 : k1.length < 18446744073709551616)
    (hv1 : v1.length < 18446744073709551616)
    (hk2 : k2.length < 18446744073709551616)
    (hv2 : v2.length < 18446744073709551616)
    (hrd1 : pubKeyScalarMultiply eph1 encPriv = some sh1)
    (hrd2 : pubKeyScalarMultiply eph2 encPriv = some sh2)
    (hcbc1 : decryptCBC (encryptCBC (sealPlain c1 k1 v1 macKey) (hash256 sh1) iv1)
      (hash256 sh1) iv1 = some (sealPlain c1 k1 v1 macKey))
    (hcbc2 : decryptCBC (encryptCBC (sealPlain c2 k2 v2 macKey) (hash256 sh2) iv2)
      (hash256 sh2) iv2 = some (sealPlain c2 k2 v2 macKey))
    (hne1 : computeHmac (be32 c1) k2 v2 macKey ≠ computeHmac (be32 c2) k2 v2 macKey)
    (hne2 : computeHmac (be32 c2) k1 v1 macKey ≠ computeHmac (be32 c1) k1 v1 macKey) :
    (∀ k v : List Nat, ∀ ctr : Nat, computeHmac (be32 ctr) k v macKey
       = getHMAC256 macKey
           (put_var_int k.length ++ k ++ put_var_int v.length ++ v ++ be32 ctr)) ∧
    decryptPair ⟨eph1, iv1, encryptCBC (sealPlain c1 k1 v1 macKey) (hash256 sh1) iv1,
        be32 c1⟩ encPriv macKey = .ok (k1, v1) ∧
    decryptPair ⟨eph2, iv2, encryptCBC (sealPlain c2 k2 v2 macKey) (hash256 sh2) iv2,
        be32 c2⟩ encPriv macKey = .ok (k2, v2) ∧
    decryptPair ⟨eph2, iv2, encryptCBC (sealPlain c2 k2 v2 macKey) (hash256 sh2) iv2,
        be32 c1⟩ encPriv macKey = .error .hmacMismatch ∧
    decryptPair ⟨eph1, iv1, encryptCBC (sealPlain c1 k1 v1 macKey) (hash256 sh1) iv1,
        be32 c2⟩ encPriv macKey = .error .hmacMismatch :=
  ⟨fun _ _ _ => rfl,
   decryptPair_seal encPriv macKey eph1 sh1 iv1 k1 v1 c1 hk1 hv1 hrd1 hcbc1,
   decryptPair_seal encPriv macKey eph2 sh2 iv2 k2 v2 c2 hk2 hv2 hrd2 hcbc2,
   decryptPair_wrongSlot encPriv macKey eph2 sh2 iv2 k2 v2 c2 c1 hk2 hv2 hrd2 hcbc2 hne1,
   decryptPair_wrongSlot encPriv macKey eph1 sh1 iv1 k1 v1 c1 c2 hk1 hv1 hrd1 hcbc1 hne2⟩

set_option maxRecDepth 10000 in
set_option maxHeartbeats 10000000 in
set_option exponentiation.threshold 100000 in
/-- Witness for C3: two concrete records under key-pair 1 of `srC2` at
counters 1 and 2; swapping their packet bodies makes both reads fail as
tampered. -/
theorem c3_hmac_binding_witness :
    computeHmac (be32 1) [107] [118] kp1C2.2
      = getHMAC256 kp1C2.2
          (put_var_int 1 ++ [107] ++ put_var_int 1 ++ [118] ++ be32 1) ∧
    decryptPair ⟨e2C3, (entC2 2).iv,
        encryptCBC (sealPlain 2 [109] [120] kp1C2.2) (hash256 sh2C3) (entC2 2).iv,
        be32 1⟩ kp1C2.1 kp1C2.2 = .error .hmacMismatch ∧
    decryptPair ⟨e1C2, (entC2 1).iv,
        encryptCBC (sealPlain 1 [107] [118] kp1C2.2) (hash256 sh1C2) (entC2 1).iv,
        be32 2⟩ kp1C2.1 kp1C2.2 = .error .hmacMismatch := by
  have h := c3_hmac_binding kp1C2.1 kp1C2.2 e1C2 e2C3 sh1C2 sh2C3
    (entC2 1).iv (entC2 2).iv [107] [118] [109] [120] 1 2
    (by decide) (by decide) (by decide) (by decide) (by decide) (by decide)
    (by decide) (by decide) (by decide) (by decide)
  exact ⟨h.1 [107] [118] 1, h.2.2.2.1, h.2.2.2.2⟩

/-- A sealed packet carries exactly the IV it was sealed with, and its
ephemeral public key is the public key of the ephemeral scalar. -/
theorem sealRecord_parts (encPriv macKey ephPriv iv k v : List Nat) (ctr : Nat)
    (pkt : IESPacket) (h : sealRecord encPriv macKey ephPriv iv ctr k v = some pkt) :
    pkt.iv = iv ∧ computePublicKey ephPriv = some pkt.pubKey := by
  unfold sealRecord at h
  split at h
  next sp ep h1 h2 =>
    split at h
    next sh h3 =>
      injection h with h4
      subst h4
      exact ⟨rfl, h2⟩
    next => exact Option.noConfusion h
  next => exact Option.noConfusion h

/-- The same, through the key-stream lookup of `sealDBRec`. -/
theorem sealDBRec_parts (sr : List Nat) (ent : Nat → EntropyDraw) (r : DBRec)
    (pkt : IESPacket) (h : sealDBRec sr ent r = some pkt) :
    pkt.iv = (ent r.eIdx).iv ∧ computePublicKey (ent r.eIdx).eph = some pkt.pubKey := by
  unfold sealDBRec at h
  split at h
  next => exact Option.noConfusion h
  next kp hkp =>
    exact sealRecord_parts kp.1 kp.2 (ent r.eIdx).eph (ent r.eIdx).iv _ _ r.ctr pkt h

/-- C10: in a well-formed sub-DB every record consumes its own entropy draw
(the draw indices are pairwise distinct), so as long as the entropy source
hands out 16-byte IVs that are pairwise distinct and never all-zero, and
ephemeral scalars whose 33-byte compressed public keys are valid secp256k1
points and pairwise distinct, the sealed packets of all records ever
written — data records, cycle markers and erasure sentinels alike — have
pairwise-distinct non-zero IVs and pairwise-distinct valid ephemeral
public keys. -/
theorem c10_entropy_freshness (s : DBState) (sr : List Nat) (ent : Nat → EntropyDraw)
    (hwf : WFdb s)
    (hivlen : ∀ i, i < s.eIdx → ((ent i).iv).length = 16)
    (hivnz : ∀ i, i < s.eIdx → (ent i).iv ≠ List.replicate 16 0)
    (hivd : ∀ i, i < s.eIdx → ∀ j, j < s.eIdx → i ≠ j → (ent i).iv ≠ (ent j).iv)
    (hephv : ∀ i, i < s.eIdx → (computePublicKey (ent i).eph).isSome = true ∧
        verifyPublicKeyValid ((computePublicKey (ent i).eph).getD []) = true ∧
        ((computePublicKey (ent i).eph).getD []).length = 33)
    (hephd : ∀ i, i < s.eIdx → ∀ j, j < s.eIdx → i ≠ j →
        (computePublicKey (ent i).eph).getD [] ≠ (computePublicKey (ent j).eph).getD []) :
    (∀ r ∈ s.recs, ∀ pkt : IESPacket, sealDBRec sr ent r = some pkt →
       pkt.iv.length = 16 ∧ pkt.iv ≠ List.replicate 16 0 ∧
       pkt.pubKey.length = 33 ∧ verifyPublicKeyValid pkt.pubKey = true) ∧
    s.recs.Pairwise (fun r1 r2 => ∀ pkt1 pkt2 : IESPacket,
       sealDBRec sr ent r1 = some pkt1 → sealDBRec sr ent r2 = some pkt2 →
       pkt1.iv ≠ pkt2.iv ∧ pkt1.pubKey ≠ pkt2.pubKey) := by
  obtain ⟨hb, hp⟩ := hwf
  constructor
  · intro r hr pkt hs
    obtain ⟨hiv, hpk⟩ := sealDBRec_parts sr ent r pkt hs
    have hi : r.eIdx < s.eIdx := (hb r hr).2.1
    obtain ⟨h1, h2, h3⟩ := hephv r.eIdx hi
    have hgd : (computePublicKey (ent r.eIdx).eph).getD [] = pkt.pubKey := by
      rw [hpk]
      rfl
    rw [hgd] at h2 h3
    refine ⟨?_, ?_, h3, h2⟩
    · rw [hiv]
      exact hivlen r.eIdx hi
    · rw [hiv]
      exact hivnz r.eIdx hi
  · refine hp.imp_of_mem ?_
    intro r1 r2 hm1 hm2 hrr
    intro pkt1 pkt2 hs1 hs2
    obtain ⟨hiv1, hpk1⟩ := sealDBRec_parts sr ent r1 pkt1 hs1
    obtain ⟨hiv2, hpk2⟩ := sealDBRec_parts sr ent r2 pkt2 hs2
    have hi1 : r1.eIdx < s.eIdx := (hb r1 hm1).2.1
    have hi2 : r2.eIdx < s.eIdx := (hb r2 hm2).2.1
    constructor
    · rw [hiv1, hiv2]
      exact hivd r1.eIdx hi1 r2.eIdx hi2 hrr.2
    · have g1 : (computePublicKey (ent r1.eIdx).eph).getD [] = pkt1.pubKey := by
        rw [hpk1]
        rfl
      have g2 : (computePublicKey (ent r2.eIdx).eph).getD [] = pkt2.pubKey := by
        rw [hpk2]
        rfl
      rw [← g1, ← g2]
      exact hephd r1.eIdx hi1 r2.eIdx hi2 hrr.2

set_option maxRecDepth 10000 in
set_option maxHeartbeats 10000000 in
set_option exponentiation.threshold 100000 in
/-- Witness for C10: the two-record sub-DB (cycle marker plus one data
record) under the concrete entropy stream `entC2`. -/
theorem c10_entropy_freshness_witness :
    WFdb (appendRec freshDB (.data [107] [118])) ∧
    ((∀ r ∈ (appendRec freshDB (.data [107] [118])).recs, ∀ pkt : IESPacket,
        sealDBRec srC2 entC2 r = some pkt →
        pkt.iv.length = 16 ∧ pkt.iv ≠ List.replicate 16 0 ∧
        pkt.pubKey.length = 33 ∧ verifyPublicKeyValid pkt.pubKey = true) ∧
     (appendRec freshDB (.data [107] [118])).recs.Pairwise
       (fun r1 r2 => ∀ pkt1 pkt2 : IESPacket,
         sealDBRec srC2 entC2 r1 = some pkt1 → sealDBRec srC2 entC2 r2 = some pkt2 →
         pkt1.iv ≠ pkt2.iv ∧ pkt1.pubKey ≠ pkt2.pubKey)) :=
  ⟨by unfold WFdb; exact ⟨by decide, by decide⟩,
   c10_entropy_freshness (appendRec freshDB (.data [107] [118])) srC2 entC2
     (by unfold WFdb; exact ⟨by decide, by decide⟩)
     (by decide) (by decide) (by decide) (by decide) (by decide)⟩
